import Mathlib

/-!
Verification development for `virtinst/xmlbuilder.py`, the XML <-> object
mapping engine of virt-manager.  The Python source is shallowly embedded:
pure Python functions become Lean functions, object mutation becomes
explicit state passing, Python exceptions become `Except` results, and the
libxml2 document becomes an explicit tree value (`XNode`) manipulated by
locators (child-index paths).  Python strings are Lean `String`s; string
primitives (`split`, `strip`, `startswith`, ...) are modelled over
`String.data` character lists.
-/

namespace XmlBuilder

/-- A single-quote character (codepoint 39), used to build xpath strings
containing quoted predicate values. -/
def squoteChar : Char := Char.ofNat 39

/-- The one-character string holding a single quote. -/
def squote : String := ⟨[squoteChar]⟩

/-- Model of a Python scalar value as stored in `_propstore` and passed to
`XMLProperty` getters/setters: `None`, `bool`, `int` or `str`. -/
inductive PyVal where
  | pynone
  | pybool (b : Bool)
  | pyint (i : Int)
  | pystr (s : String)
deriving DecidableEq, Repr

/-- Python truthiness of a `PyVal` (`None`, `False`, `0`, `""` are falsy). -/
def pyTruthy : PyVal → Bool
  | .pynone => false
  | .pybool b => b
  | .pyint i => decide (i ≠ 0)
  | .pystr s => decide (s ≠ "")

/-- Python `str()` of a scalar value. -/
def pyStr : PyVal → String
  | .pynone => "None"
  | .pybool b => if b then "True" else "False"
  | .pyint i => toString i
  | .pystr s => s

/-- Is `t` an infix of `l`? -/
def listIsInfix {α : Type} [BEq α] (t : List α) : List α → Bool
  | [] => t.isEmpty
  | x :: xs => t.isPrefixOf (x :: xs) || listIsInfix t xs

/-- Python `sub in s` substring test. -/
def strContainsSub (s sub : String) : Bool := listIsInfix sub.data s.data

/-- Python `s.startswith(t)`. -/
def strStarts (s t : String) : Bool := t.data.isPrefixOf s.data

/-- Python `s.endswith(t)`. -/
def strEnds (s t : String) : Bool := t.data.isSuffixOf s.data

/-- Character membership in a string (Python `c in s` for one-char `c`). -/
def strContainsChar (s : String) (c : Char) : Bool := s.data.contains c

/-- Python `s.strip(c)` for a one-character strip set: remove every leading
and trailing occurrence of `c`. -/
def stripChar (c : Char) (s : String) : String :=
  ⟨((s.data.dropWhile (· == c)).reverse.dropWhile (· == c)).reverse⟩

/-- Split a character list at every occurrence of `c`. -/
def splitChar (c : Char) : List Char → List (List Char)
  | [] => [[]]
  | x :: xs =>
    let r := splitChar c xs
    if x == c then [] :: r
    else
      match r with
      | h :: t => (x :: h) :: t
      | [] => [[x]]

/-- Python `s.split(c)` for a one-character separator (every separator in
this file is one character). -/
def strSplit (s : String) (c : Char) : List String :=
  (splitChar c s.data).map fun l => ⟨l⟩

/-- The remainder of `s` after its first newline (Python
`s.split("\n", 1)[1]`); empty when `s` has no newline (where Python would
raise `ValueError`, a case unreachable from the serializations produced in
this embedding). -/
def afterFirstNewline (s : String) : String :=
  ⟨(s.data.dropWhile (· != '\n')).drop 1⟩

/-- `util.xml_escape` (the `util` module is not part of `src/`): escape
the XML metacharacters ampersand, less-than and greater-than. -/
def xml_escape (s : String) : String :=
  ⟨s.data.flatMap fun c =>
    if c == '&' then "&amp;".data
    else if c == '<' then "&lt;".data
    else if c == '>' then "&gt;".data
    else [c]⟩

/-- `_sanitize_libxml_xml`: strip a leading `<?...>` declaration line, and
append a trailing newline when the text spans several lines but does not
already end with one. -/
def sanitize_libxml_xml (xml : String) : String :=
  let xml := if strStarts xml "<?" then afterFirstNewline xml else xml
  if !(strEnds xml "\n") && strContainsChar xml '\n' then xml ++ "\n" else xml

/-! ## The libxml2 document model

A parsed document is its root element.  Element nodes carry a name, an
optional namespace tag, an ordered attribute list and an ordered child
list; text nodes carry their content.  Content strings are stored exactly
as handed to `setContent` (libxml2 parses entity references on
`setContent` and re-escapes on serialize, which composes with the
`util.xml_escape` call in `_set_xml` to the identity on the stored text,
so serialization below emits content verbatim). -/

inductive XNode where
  | elem (name : String) (ns : Option String) (attrs : List (String × String))
      (children : List XNode)
  | text (content : String)

/-- Serialize an attribute list as libxml2 does, double-quoted. -/
def serializeAttrs : List (String × String) → String
  | [] => ""
  | (k, v) :: rest => " " ++ k ++ "=\"" ++ v ++ "\"" ++ serializeAttrs rest

mutual

/-- libxml2 `node.serialize()`: exact text of the subtree, no added
formatting (whitespace lives in explicit text nodes). -/
def serializeNode : XNode → String
  | .text c => c
  | .elem name ns attrs children =>
    let tag := (match ns with | some n => n ++ ":" | none => "") ++ name
    let astr := serializeAttrs attrs
    match children with
    | [] => "<" ++ tag ++ astr ++ "/>"
    | cs => "<" ++ tag ++ astr ++ ">" ++ serializeList cs ++ "</" ++ tag ++ ">"

/-- Serialize a child list in order. -/
def serializeList : List XNode → String
  | [] => ""
  | n :: rest => serializeNode n ++ serializeList rest

end

/-- Replace the element at index `i` (no effect when out of range). -/
def listModify {α : Type} (l : List α) (i : Nat) (f : α → α) : List α :=
  match l, i with
  | [], _ => []
  | x :: xs, 0 => f x :: xs
  | x :: xs, n + 1 => x :: listModify xs n f

/-- Insert `a` before index `i` (append when `i` is past the end), the
semantics of Python `list.insert`. -/
def listInsertAt {α : Type} (i : Nat) (a : α) (l : List α) : List α :=
  match l, i with
  | l, 0 => a :: l
  | [], _ + 1 => [a]
  | x :: xs, n + 1 => x :: listInsertAt n a xs

/-- Remove the element at index `i` (no effect when out of range). -/
def listRemoveAt {α : Type} (l : List α) (i : Nat) : List α :=
  match l, i with
  | [], _ => []
  | _ :: xs, 0 => xs
  | x :: xs, n + 1 => x :: listRemoveAt xs n

/-- Fetch the node at a child-index path. -/
def getNodeAt : XNode → List Nat → Option XNode
  | n, [] => some n
  | .elem _ _ _ cs, i :: rest =>
    match cs.get? i with
    | some c => getNodeAt c rest
    | none => none
  | .text _, _ :: _ => none

/-- Rewrite the node at a child-index path (no effect when the path is
dangling). -/
def modifyNodeAt : XNode → List Nat → (XNode → XNode) → XNode
  | n, [], f => f n
  | .elem nm ns a cs, i :: rest, f => .elem nm ns a (listModify cs i (modifyNodeAt · rest f))
  | .text c, _ :: _, _ => .text c

/-- First value bound to attribute `k`. -/
def getAttr (attrs : List (String × String)) (k : String) : Option String :=
  (attrs.find? (·.1 == k)).map (·.2)

/-- libxml2 `setProp`: replace the first binding of `k` or append a new
one. -/
def setAttr : List (String × String) → String → String → List (String × String)
  | [], k, v => [(k, v)]
  | (k0, v0) :: rest, k, v =>
    if k0 == k then (k, v) :: rest else (k0, v0) :: setAttr rest k v

/-! ## Path Model (`_XPathSegment` / `_XPath`)

`_XPathSegment.__init__` splits one `/`-separated path component.  Python
tuple unpacking of `str.split` raises `ValueError` when the number of
produced parts is not two; those points become `Except.error` here.  Note
`strSplit` agrees with Python `s.split(sep)` for the one-character separators
used. -/

structure XPathSegment where
  fullsegment : String
  nodename : String
  nsname : Option String
  is_prop : Bool
  condition_prop : Option String
  condition_val : Option String
deriving DecidableEq, Repr

/-- The final block of `_XPathSegment.__init__`: split a `ns:name`
namespace tag off the remaining node name. -/
def parseSegColon (fullsegment nodename : String) (is_prop : Bool)
    (cprop cval : Option String) : Except String XPathSegment :=
  if strContainsChar nodename ':' then
    match strSplit nodename ':' with
    | [a, b] => pure ⟨fullsegment, b, some a, is_prop, cprop, cval⟩
    | _ => throw "ValueError: unpack nodename.split colon"
  else pure ⟨fullsegment, nodename, none, is_prop, cprop, cval⟩

/-- `_XPathSegment.__init__`: split the bracket expression, then a leading
`@`, then a namespace tag (`parseSegColon`).  Errors are the
`ValueError`s Python's 2-tuple unpacking of `split` raises when a
separator occurs more than once. -/
def parseXPathSegment (fullsegment : String) : Except String XPathSegment := do
  let nodename := fullsegment
  let (nodename, cond) ←
    if strContainsChar nodename '[' then
      match strSplit nodename '[' with
      | [a, b] => pure (a, some b)
      | _ => throw "ValueError: unpack nodename.split"
    else
      pure (nodename, none)
  let (cprop, cval) ←
    match cond with
    | some c =>
      if strContainsChar c '=' then
        match strSplit (stripChar ']' c) '=' with
        | [a, b] => pure (some (stripChar '@' a), some (stripChar squoteChar b))
        | _ => throw "ValueError: unpack cond.split"
      else
        pure (none, none)
    | none => pure (none, none)
  let is_prop := strStarts nodename "@"
  let nodename := if is_prop then ⟨nodename.data.drop 1⟩ else nodename
  parseSegColon fullsegment nodename is_prop cprop cval

/-- Parse each segment in order; the first error propagates (as in the
source's list comprehension). -/
def parseSegList : List String → Except String (List XPathSegment)
  | [] => pure []
  | s :: rest =>
    match parseXPathSegment s with
    | .error e => .error e
    | .ok seg =>
      match parseSegList rest with
      | .error e => .error e
      | .ok segs => .ok (seg :: segs)

/-- `_XPath.__init__`: split the xpath on `/` into segments. -/
def parseXPath (fullxpath : String) : Except String (List XPathSegment) :=
  parseSegList (strSplit fullxpath '/')

/-- Value of a hexadecimal digit. -/
def hexVal (c : Char) : Option Nat :=
  if c.isDigit then some (c.toNat - 48)
  else if 'a' ≤ c && c ≤ 'f' then some (c.toNat - 97 + 10)
  else if 'A' ≤ c && c ≤ 'F' then some (c.toNat - 65 + 10)
  else none

/-- Parse a nonempty digit string in the given base. -/
def natOfDigits (base : Nat) : List Char → Option Nat → Option Nat
  | [], acc => acc
  | c :: rest, acc =>
    match hexVal c, acc with
    | some d, some a => if d < base then natOfDigits base rest (some (a * base + d)) else none
    | _, _ => none

/-! ## The query side of the Tree Access Layer (`_XMLAPI.find` and friends)

The source evaluates path strings with libxml2's `xpathEval`.  Only the
restricted grammar of the spec ever reaches it (`/`-separated segments,
optional `ns:` tag, optional `@attr`, optional `[@name=...]` predicate or
positional `[n]` index); the evaluator below implements exactly that
fragment.  A result is a locator: a child-index path into the document
root, optionally naming an attribute. -/

inductive EvalPred where
  | attrEq (p v : String)
  | pos (n : Nat)
deriving DecidableEq, Repr

inductive EvalSeg where
  | dot
  | attr (name : String)
  | node (ns : Option String) (name : String) (pred : Option EvalPred)
deriving DecidableEq, Repr

/-- A name usable as an element or attribute name in the restricted
grammar. -/
def nameOk (s : String) : Bool :=
  !s.isEmpty && s.data.all fun c =>
    !(c == '[' || c == ']' || c == '@' || c == '=' || c == '/' ||
      c == ':' || c == squoteChar)

/-- Parse `name` or `ns:name` (at most one colon). -/
def parseQName (s : String) : Option (Option String × String) :=
  match strSplit s ':' with
  | [n] => if nameOk n then some (none, n) else none
  | [a, b] => if nameOk a && nameOk b then some (some a, b) else none
  | _ => none

/-- Parse one evaluator segment of the restricted grammar. -/
def parseEvalSeg (s : String) : Option EvalSeg :=
  if s == "." then some .dot
  else if strStarts s "@" then
    let n : String := ⟨s.data.drop 1⟩
    if nameOk n then some (.attr n) else none
  else
    match strSplit s '[' with
    | [base] => (parseQName base).map fun (ns, n) => .node ns n none
    | [base, predPart] =>
      (parseQName base).bind fun (ns, n) =>
      if strEnds predPart "]" then
        let inner : String := ⟨predPart.data.dropLast⟩
        if !inner.isEmpty && inner.data.all Char.isDigit then
          (natOfDigits 10 inner.data (some 0)).map fun k => EvalSeg.node ns n (some (.pos k))
        else if strStarts inner "@" then
          match strSplit (⟨inner.data.drop 1⟩ : String) '=' with
          | [p, qv] =>
            if nameOk p && strStarts qv squote && strEnds qv squote &&
               qv.length ≥ 2 then
              some (.node ns n (some (.attrEq p ⟨(qv.data.drop 1).dropLast⟩)))
            else none
          | _ => none
        else none
      else none
    | _ => none

/-- Parse a whole path of the restricted grammar. -/
def parseEvalPath (p : String) : Option (List EvalSeg) :=
  (strSplit p '/').mapM parseEvalSeg

/-- Is `p` a well-formed path of the restricted grammar? -/
def xpathWf (p : String) : Bool := (parseEvalPath p).isSome

/-- A locator for a node found by the evaluator: a child-index path from
the document root, optionally naming an attribute of that element. -/
inductive Loc where
  | node (idxs : List Nat)
  | attr (idxs : List Nat) (name : String)
deriving DecidableEq, Repr

/-- Does child `c` match an element step named `name` with namespace tag
`ns`? -/
def childMatches (ns : Option String) (name : String) (c : XNode) : Bool :=
  match c with
  | .elem n ns2 _ _ => n == name && ns2 == ns
  | .text _ => false

/-- One evaluation step: advance every current locator across `seg`,
keeping document order. -/
def evalStep (root : XNode) (locs : List Loc) (seg : EvalSeg) : List Loc :=
  locs.flatMap fun l =>
    match l, seg with
    | .node _, .dot => [l]
    | .node idxs, .attr a =>
      match getNodeAt root idxs with
      | some (.elem _ _ attrs _) =>
        if (getAttr attrs a).isSome then [.attr idxs a] else []
      | _ => []
    | .node idxs, .node ns name pred =>
      match getNodeAt root idxs with
      | some (.elem _ _ _ cs) =>
        let cands := (List.range cs.length).filter fun i =>
          match cs.get? i with
          | some c => childMatches ns name c
          | none => false
        let cands :=
          match pred with
          | none => cands
          | some (.attrEq p v) => cands.filter fun i =>
              match cs.get? i with
              | some (.elem _ _ attrs _) => getAttr attrs p == some v
              | _ => false
          | some (.pos k) =>
            if k == 0 then [] else
              match cands.get? (k - 1) with
              | some i => [i]
              | none => []
        cands.map fun i => Loc.node (idxs ++ [i])
      | _ => []
    | .attr _ _, _ => []

/-- `_XMLAPI.findall` (libxml2 `xpathEval`): all locators matching the
path, in document order; a path outside the restricted grammar matches
nothing. -/
def findall (root : XNode) (p : String) : List Loc :=
  match parseEvalPath p with
  | none => []
  | some segs => segs.foldl (evalStep root) [Loc.node []]

/-- `_XMLAPI.find`: the first match, if any. -/
def find (root : XNode) (p : String) : Option Loc :=
  (findall root p).head?

/-- Serialize the node a locator points at (for an attribute locator, its
value). -/
def serializeLoc (root : XNode) : Loc → Option String
  | .node idxs => (getNodeAt root idxs).map serializeNode
  | .attr idxs a =>
    (getNodeAt root idxs).bind fun n =>
      match n with
      | .elem _ _ attrs _ => getAttr attrs a
      | .text _ => none

/-- `_XMLAPI.get_xml`: serialize the subtree at the path, sanitized;
empty string when nothing is found.  (A locator produced by `find` never
dangles, so the `getD` default never fires.) -/
def get_xml (root : XNode) (xpath : String) : String :=
  match find root xpath with
  | none => ""
  | some l => sanitize_libxml_xml ((serializeLoc root l).getD "")

/-! ## The editing side of the Tree Access Layer -/

/-- `node_is_text` from `_XMLAPI.node_add_child`: a text node whose
content does not contain `<`. -/
def node_is_text : Option XNode → Bool
  | some (.text c) => !(strContainsChar c '<')
  | _ => false

/-- `_XMLAPI.node_add_child` on a parent's child list.  `prevsib` is the
parent's preceding sibling (used to copy an indentation convention when
the parent was childless).  Mirrors the source combined with libxml2's
text-node coalescing in `addNextSibling`: the two-space separator merges
into the final text child.  Returns the new child list and the index at
which `newnode` was linked. -/
def node_add_child_pure (prevsib : Option XNode) (children : List XNode)
    (newnode : XNode) : List XNode × Nat :=
  let children1 :=
    if node_is_text children.getLast? then children
    else
      let filler :=
        match prevsib with
        | some (.text pc) => if !(strContainsChar pc '<') then pc else "\n"
        | _ => "\n"
      children ++ [XNode.text filler]
  let c :=
    match children1.getLast? with
    | some (.text c) => c
    | _ => ""
  (children1.dropLast ++ [XNode.text (c ++ "  "), newnode, XNode.text c],
   children1.length)

/-- The `prevSibling` helper of `node_add_child`, at a locator (the
document root has no sibling). -/
def prevSiblingOf (root : XNode) (ploc : List Nat) : Option XNode :=
  match ploc.getLast? with
  | none => none
  | some i =>
    if i == 0 then none else getNodeAt root (ploc.dropLast ++ [i - 1])

/-- `node_add_child` lifted to the whole document: link `newnode` under
the element at `ploc`. -/
def node_add_child_at (root : XNode) (ploc : List Nat) (newnode : XNode) :
    XNode × List Nat :=
  match getNodeAt root ploc with
  | some (.elem _ _ _ cs) =>
    let (cs2, idx) := node_add_child_pure (prevSiblingOf root ploc) cs newnode
    (modifyNodeAt root ploc fun n =>
      match n with
      | .elem nm ns a _ => .elem nm ns a cs2
      | t => t,
     ploc ++ [idx])
  | _ => (root, ploc)

/-- libxml2 `setProp` at a locator. -/
def setPropAt (root : XNode) (loc : List Nat) (k v : String) : XNode :=
  modifyNodeAt root loc fun n =>
    match n with
    | .elem nm ns a cs => .elem nm ns (setAttr a k v) cs
    | t => t

/-- `_XMLAPI._node_new`: a fresh empty element.  (The source additionally
registers the namespace URI on the context node via `newNs`; only the
tag is tracked here.) -/
def node_new (nodename : String) (nsname : Option String) : XNode :=
  .elem nodename nsname [] []

/-- The create branch of `node_make_stub`'s loop: link a fresh element for
`seg` under `ploc` and, when the segment carries a (truthy) predicate,
set the predicate attribute on the new node. -/
def stubCreate (root : XNode) (ploc : List Nat) (seg : XPathSegment) :
    XNode × List Nat :=
  let newnode := node_new seg.nodename seg.nsname
  let (root1, newloc) := node_add_child_at root ploc newnode
  match seg.condition_prop with
  | some cp =>
    if cp == "" then (root1, newloc)
    else (setPropAt root1 newloc cp (seg.condition_val.getD ""), newloc)
  | none => (root1, newloc)

/-- The segment walk of `node_make_stub`: re-resolve the accumulated
parent path each round (as the source's `self.find(parentpath)` does),
descending into an existing match or creating a stub node; a final
attribute segment sets an empty attribute and stops. -/
def stubLoop (root : XNode) (parentpath : String) (ploc : List Nat) :
    List XPathSegment → XNode × Loc
  | [] => (root, .node ploc)
  | seg :: rest =>
    if seg.is_prop then
      (setPropAt root ploc seg.nodename "", .attr ploc seg.nodename)
    else
      let parentpath := parentpath ++ "/" ++ seg.fullsegment
      match find root parentpath with
      | some (.node l) => stubLoop root parentpath l rest
      | some (.attr l a) => (root, .attr l a)
      | none =>
        let (root1, newloc) := stubCreate root ploc seg
        stubLoop root1 parentpath newloc rest

/-- `_XMLAPI.node_make_stub`: materialize every missing node along
`fullxpath` starting from the document root, returning the final node's
locator.  Errors are those of `_XPath` parsing. -/
def node_make_stub (root : XNode) (fullxpath : String) :
    Except String (XNode × Loc) :=
  match parseXPath fullxpath with
  | .error e => .error e
  | .ok [] => .error "programming error: no root segment"
  | .ok (_ :: rest) => .ok (stubLoop root "." [] rest)

/-- Python `s.rsplit("/", 1)[0]`: everything before the last slash. -/
def beforeLastSlash (s : String) : String :=
  ⟨(((s.data.reverse.dropWhile (· != '/')).drop 1)).reverse⟩

/-- Remove child `i` of the element at `ploc`. -/
def removeChildAt (root : XNode) (ploc : List Nat) (i : Nat) : XNode :=
  modifyNodeAt root ploc fun n =>
    match n with
    | .elem nm ns a cs => .elem nm ns a (listRemoveAt cs i)
    | t => t

/-- Remove the first binding of attribute `a` on the element at `idxs`
(libxml2 `unlinkNode` on an attribute node). -/
def removeAttrAt (root : XNode) (idxs : List Nat) (a : String) : XNode :=
  modifyNodeAt root idxs fun n =>
    match n with
    | .elem nm ns attrs cs =>
      .elem nm ns (attrs.eraseP (fun kv => kv.1 == a)) cs
    | t => t

/-- One unlink of `node_remove`: drop an immediately preceding
pure-whitespace text sibling, then unlink the node itself. -/
def unlinkWithWhitespace (root : XNode) (idxs : List Nat) : XNode :=
  match idxs.getLast? with
  | none => root
  | some i =>
    let ploc := idxs.dropLast
    let (root, i) :=
      if i == 0 then (root, i)
      else
        match getNodeAt root (ploc ++ [i - 1]) with
        | some (.text c) =>
          if !(strContainsChar c '<') then (removeChildAt root ploc (i - 1), i - 1)
          else (root, i)
        | _ => (root, i)
    removeChildAt root ploc i

/-- The loop of `_XMLAPI.node_remove`, walking candidate paths from the
requested xpath up through its ancestors.  `top` models the `_top_node`
global.  Fuel bounds the iteration count (each round strictly shortens
the candidate path); `node_remove` supplies enough. -/
def node_remove_loop (origxpath : String) (top : Option Loc) :
    Nat → String → XNode → XNode
  | 0, _, root => root
  | fuel + 1, nextxpath, root =>
    if nextxpath == "" then root
    else
      let curxpath := nextxpath
      let is_orig := curxpath == origxpath
      let next :=
        if strContainsChar curxpath '/' then beforeLastSlash curxpath else ""
      match find root curxpath with
      | none => node_remove_loop origxpath top fuel next root
      | some loc =>
        match loc with
        | .attr idxs a =>
          -- attribute node: no preceding text sibling to clean up
          if idxs == [] && a == "" then root  -- unreachable guard
          else node_remove_loop origxpath top fuel next (removeAttrAt root idxs a)
        | .node idxs =>
          match getNodeAt root idxs with
          | some (.elem _ _ attrs cs) =>
            if (!cs.isEmpty || !attrs.isEmpty) && !is_orig then
              node_remove_loop origxpath top fuel next root
            else if idxs == [] || top == some loc then
              root
            else
              node_remove_loop origxpath top fuel next
                (unlinkWithWhitespace root idxs)
          | _ => node_remove_loop origxpath top fuel next root

/-- `_XMLAPI.node_remove`: remove the content at `xpath` together with
conservative cleanup of now-empty ancestors and preceding whitespace.
(The `dofree` flag of the source only controls storage release and has no
counterpart for tree values.) -/
def node_remove (root : XNode) (xpath : String) (top : Option Loc) : XNode :=
  node_remove_loop xpath top (xpath.length + 1) xpath root

/-- libxml2 `setContent` at a locator (content `""` clears the children;
entity references in `content` would be parsed by libxml2, which cancels
against re-escaping at serialization, so the string is stored as given). -/
def setContentAt (root : XNode) (l : Loc) (content : String) : XNode :=
  match l with
  | .node idxs =>
    modifyNodeAt root idxs fun n =>
      match n with
      | .elem nm ns a _ => .elem nm ns a (if content == "" then [] else [.text content])
      | .text _ => .text content
  | .attr idxs a =>
    modifyNodeAt root idxs fun n =>
      match n with
      | .elem nm ns attrs cs => .elem nm ns (setAttr attrs a content) cs
      | t => t

/-- The tree side of `XMLProperty._set_xml`: remove the node for an
absent/false value, otherwise stub the path if needed and set the
escaped text content (`True` values need only node presence). -/
def set_xml_tree (root : XNode) (xpath : String) (setval : PyVal) :
    Except String XNode :=
  if setval == .pynone || setval == .pybool false then
    .ok (node_remove root xpath none)
  else do
    let (root1, node) ←
      match find root xpath with
      | some l => pure (root, l)
      | none => node_make_stub root xpath
    if setval == .pybool true then
      pure root1
    else
      pure (setContentAt root1 node (xml_escape (pyStr setval)))

/-! ## Path State (`_XMLState`)

The source's `_XMLState` also holds the shared `xmlapi` handle; the tree
is passed explicitly alongside builders here, so the state keeps only the
addressing data and the build flag. -/

structure XMLState where
  root_name : String
  relative_object_xpath : String
  parent_xpath : String
  is_build : Bool
deriving DecidableEq, Repr

/-- The registered namespace table (`_namespaces`). -/
def namespaces (ns : String) : Option String :=
  if ns == "qemu" then some "http://libvirt.org/schemas/domain/qemu/1.0"
  else none

/-- `_XMLState.get_root_xpath`, including Python's `A and B or C`
selection: when the relative path starts with `.` but consists of the
marker alone, `relpath[1:]` is the empty (falsy) string and the `or` arm
falls back to the unstripped relative path. -/
def XMLState.get_root_xpath (st : XMLState) : String :=
  let relpath := st.relative_object_xpath
  if st.parent_xpath == "" then relpath
  else
    st.parent_xpath ++
      (if strStarts relpath "." then
        (if (⟨relpath.data.drop 1⟩ : String) == "" then relpath
         else ⟨relpath.data.drop 1⟩)
       else relpath)

/-- Python `s.split("/", 2)[2]`: everything after the second slash.  (The
source raises `IndexError` when fewer than two slashes remain; that case
is unreachable because callers pass `./`-rooted xpaths.) -/
def afterSecondSlash (s : String) : String :=
  let rest := (s.data.dropWhile (· != '/')).drop 1
  ⟨(rest.dropWhile (· != '/')).drop 1⟩

/-- `_XMLState.fix_relative_xpath`: rebase a declared xpath under this
object's absolute root path. -/
def XMLState.fix_relative_xpath (st : XMLState) (xpath : String) : String :=
  let fullpath := st.get_root_xpath
  if fullpath == "" || fullpath == "/" ++ st.root_name then xpath
  else if strStarts xpath "." then fullpath ++ stripChar '.' xpath
  else if xpath.data.count '/' == 1 then fullpath
  else fullpath ++ "/" ++ afterSecondSlash xpath

/-- `_XMLState.make_xml_stub`: the minimal document text for the root
name, with a namespace declaration when the name carries a tag.  (An
unregistered tag raises `KeyError` in the source; modelled as an empty
URI.) -/
def XMLState.make_xml_stub (st : XMLState) : String :=
  let ret := "<" ++ st.root_name
  let ret :=
    if strContainsChar st.root_name ':' then
      let ns := ((strSplit st.root_name ':').headD "")
      ret ++ " xmlns:" ++ ns ++ "=" ++ squote ++ ((namespaces ns).getD "") ++ squote
    else ret
  ret ++ "/>"

/-- The parsed form of the stub document (`libxml2.parseDoc` applied to
`make_xml_stub`), used as the initial tree of a build-mode root. -/
def stub_doc (root_name : String) : XNode :=
  if strContainsChar root_name ':' then
    match strSplit root_name ':' with
    | [ns, nm] => .elem nm (some ns) [("xmlns:" ++ ns, (namespaces ns).getD "")] []
    | _ => .elem root_name none [] []
  else .elem root_name none [] []

/-! ## Scalar Property Descriptor (`XMLProperty`)

Callbacks (`validate_cb`, `set_converter`, `default_cb`) receive the
owning object in the source; they are modelled as pure functions of the
object's scalar `_propstore` (providers are documented side-effect-free).
The field name, resolved by `_findpropname` at runtime in the source, is
carried in the descriptor. -/

/-- The scalar part of `XMLBuilder._propstore`: field name to value, in
insertion order (a Python dict). -/
abbrev PropStore := List (String × PyVal)

structure PropDecl where
  name : String
  xpath : String
  is_bool : Bool
  is_int : Bool
  is_yesno : Bool
  is_onoff : Bool
  do_abspath : Bool
  validate_cb : Option (PropStore → PyVal → Except String Unit)
  set_converter : Option (PropStore → PyVal → PyVal)
  default_cb : Option (PropStore → PyVal)
  default_name : Option PyVal

/-- Python truthiness of the `default_name` option (the source tests
`if self._default_name`). -/
def PropDecl.hasDefaultName (p : PropDecl) : Bool :=
  match p.default_name with
  | some v => pyTruthy v
  | none => false

/-- The `XMLProperty.__init__` configuration checks: an xpath is
required, at most one semantic-type flag may be set, and a default
sentinel requires a default provider. -/
def PropDecl.wf (p : PropDecl) : Bool :=
  !(p.xpath == "") &&
  decide ((if p.is_bool then 1 else 0) + (if p.is_int then 1 else 0) +
    (if p.is_yesno then 1 else 0) + (if p.is_onoff then 1 else 0) ≤ 1) &&
  !(p.hasDefaultName && p.default_cb.isNone)

/-- Python `int(s)` / `int(s, 16)`: optional sign, then digits; base 16
additionally allows a `0x` marker.  (Surrounding whitespace, accepted by
Python, is not modelled.) -/
def pyIntOfString (hex : Bool) (s : String) : Option Int :=
  let l := s.data
  let (neg, l) :=
    match l with
    | '-' :: r => (true, r)
    | '+' :: r => (false, r)
    | l => (false, l)
  let l := if hex && ("0x".data.isPrefixOf l) then l.drop 2 else l
  if l.isEmpty then none
  else
    (natOfDigits (if hex then 16 else 10) l (some 0)).map fun n =>
      if neg then -(n : Int) else (n : Int)

/-- Python `int(val, **intkwargs)` as used by the converters: base 16 is
passed exactly when `"0x" in str(val)`. -/
def pyInt (val : PyVal) : Except String Int :=
  match val with
  | .pyint i => .ok i
  | .pybool b => .ok (if b then 1 else 0)
  | .pynone => .error "TypeError: int() argument is None"
  | .pystr s =>
    match pyIntOfString (strContainsSub s "0x") s with
    | some i => .ok i
    | none => .error "ValueError: invalid literal for int()"

/-- `XMLProperty._convert_get_value`.  (`PyVal` equality is structural;
Python's cross-type numeric equalities do not arise for the sentinel
values used.) -/
def convert_get_value (p : PropDecl) (val : PyVal) : Except String PyVal :=
  if p.hasDefaultName && some val == p.default_name then .ok val
  else if p.is_bool then .ok (.pybool (pyTruthy val))
  else if p.is_int && val != .pynone then (pyInt val).map .pyint
  else if p.is_yesno && val != .pynone then .ok (.pybool (val == .pystr "yes"))
  else if p.is_onoff && val != .pynone then .ok (.pybool (val == .pystr "on"))
  else .ok val

/-- `os.path.abspath` (standard library): modelled with a root working
directory and without `..`/`.` normalization, which no claim exercises. -/
def os_path_abspath (s : String) : String :=
  if strStarts s "/" then s else "/" ++ s

/-- `XMLProperty._convert_set_value`: sentinel-to-default substitution,
then exactly one of abspath normalization / semantic write conversion,
then the custom set-transform. -/
def convert_set_value (p : PropDecl) (store : PropStore) (val : PyVal) :
    Except String PyVal := do
  let val ←
    if p.hasDefaultName && some val == p.default_name then
      match p.default_cb with
      | some cb => pure (cb store)
      | none => pure val
    else if p.do_abspath && val != .pynone then
      pure (.pystr (os_path_abspath (pyStr val)))
    else if p.is_onoff && val != .pynone then
      pure (.pystr (if pyTruthy val then "on" else "off"))
    else if p.is_yesno && val != .pynone then
      pure (.pystr (if pyTruthy val then "yes" else "no"))
    else if p.is_int && val != .pynone then
      (pyInt val).map PyVal.pyint
    else
      pure val
  match p.set_converter with
  | some f => pure (f store val)
  | none => pure val

/-! ## Object (`XMLBuilder`) state

An object holds its Path State, its declared scalar properties
(`_all_xml_props`, in declaration order), the scalar explicit-value store
and order record, the static `_XML_PROP_ORDER` list, and its child
objects grouped by child-property name (`_all_child_props`; the scalar
and child halves of the source's single `_propstore` dict are split
here).  A singleton child property is a one-element group. -/

inductive Builder where
  | mk (state : XMLState) (props : List PropDecl) (propstore : PropStore)
      (proporder : List String) (xml_prop_order : List String)
      (children : List (String × List Builder))

def Builder.state : Builder → XMLState
  | .mk s _ _ _ _ _ => s

def Builder.props : Builder → List PropDecl
  | .mk _ p _ _ _ _ => p

def Builder.propstore : Builder → PropStore
  | .mk _ _ ps _ _ _ => ps

def Builder.proporder : Builder → List String
  | .mk _ _ _ po _ _ => po

def Builder.xml_prop_order : Builder → List String
  | .mk _ _ _ _ o _ => o

def Builder.children : Builder → List (String × List Builder)
  | .mk _ _ _ _ _ cs => cs

/-- Replace the scalar store and order record. -/
def Builder.setStore : Builder → PropStore → List String → Builder
  | .mk s p _ _ o cs, ps, po => .mk s p ps po o cs

/-- Replace the object group of one child property. -/
def Builder.setChildrenAt : Builder → String → List Builder → Builder
  | .mk s p ps po o cs, k, objs =>
    .mk s p ps po o (cs.map fun kv => if kv.1 == k then (k, objs) else kv)

/-- Python dict assignment on the store: update in place, or append a new
binding at the end. -/
def storeSet (store : PropStore) (k : String) (v : PyVal) : PropStore :=
  if (store.lookup k).isSome then
    store.map fun kv => if kv.1 == k then (k, v) else kv
  else store ++ [(k, v)]

/-- `XMLProperty._prop_is_unset`. -/
def prop_is_unset (p : PropDecl) (b : Builder) : Bool :=
  (b.propstore.lookup p.name).isNone

/-- `XMLProperty._default_get_value`: `some v` models `(True, v)`, `none`
models `(False, -1)`. -/
def default_get_value (p : PropDecl) (b : Builder) : Option PyVal :=
  if !b.state.is_build then none
  else if !(prop_is_unset p b) then none
  else
    match p.default_cb with
    | none => none
    | some cb =>
      if p.hasDefaultName then p.default_name
      else some (cb b.propstore)

/-- `XMLProperty._nonxml_fset`: store the value and move the field name
to the end of the order record. -/
def nonxml_fset (p : PropDecl) (b : Builder) (val : PyVal) : Builder :=
  let propstore := storeSet b.propstore p.name val
  let proporder :=
    (if b.proporder.contains p.name then b.proporder.erase p.name
     else b.proporder) ++ [p.name]
  b.setStore propstore proporder

/-- `XMLProperty._nonxml_fget`. -/
def nonxml_fget (p : PropDecl) (b : Builder) : PyVal :=
  match default_get_value p b with
  | some v => v
  | none => (b.propstore.lookup p.name).getD .pynone

/-- The validation step of `XMLProperty.setter`: run the callback, when
requested and registered, against the raw incoming value. -/
def run_validate (p : PropDecl) (store : PropStore) (val : PyVal)
    (validate : Bool) : Except String Unit :=
  if validate then
    match p.validate_cb with
    | some cb => cb store val
    | none => pure ()
  else pure ()

/-- `XMLProperty.setter`: validate (against the raw incoming value), then
convert and store. -/
def setter (p : PropDecl) (b : Builder) (val : PyVal) (validate : Bool) :
    Except String Builder := do
  run_validate p b.propstore val validate
  let conv ← convert_set_value p b.propstore val
  pure (nonxml_fset p b conv)

/-- `XMLProperty._set_default`: encode the default via the normal set
path (validation bypassed) when one applies. -/
def set_default (p : PropDecl) (b : Builder) : Except String Builder :=
  match default_get_value p b with
  | none => pure b
  | some v => setter p b v false

mutual

/-- libxml2 `node.content` of a subtree: the concatenated text content. -/
def nodeContent : XNode → String
  | .text c => c
  | .elem _ _ _ cs => nodeContentList cs

/-- Concatenated content of a child list. -/
def nodeContentList : List XNode → String
  | [] => ""
  | n :: rest => nodeContent n ++ nodeContentList rest

end

/-- Content of the node a locator denotes (attribute value for attribute
locators). -/
def locContent (root : XNode) : Loc → Option String
  | .node idxs => (getNodeAt root idxs).map nodeContent
  | .attr idxs a =>
    (getNodeAt root idxs).bind fun n =>
      match n with
      | .elem _ _ attrs _ => getAttr attrs a
      | .text _ => none

/-- `XMLProperty._get_xml`: the raw value read from the backing tree
(node presence alone for boolean semantics). -/
def get_xml_prop (p : PropDecl) (b : Builder) (tree : XNode) : PyVal :=
  let xpath := b.state.fix_relative_xpath p.xpath
  match find tree xpath with
  | none => .pynone
  | some l =>
    if p.is_bool then .pybool true
    else .pystr ((locContent tree l).getD "")

/-- `XMLProperty.getter`: tree value for parse-mode unset fields,
otherwise the stored (or default) value, then the read conversion. -/
def getter (p : PropDecl) (b : Builder) (tree : XNode) : Except String PyVal :=
  let val :=
    if prop_is_unset p b && !b.state.is_build then get_xml_prop p b tree
    else nonxml_fget p b
  convert_get_value p val

/-- The builder-level `XMLProperty._set_xml`: resolve the xpath and write
the stored value into the tree. -/
def set_xml (p : PropDecl) (b : Builder) (tree : XNode) (setval : PyVal) :
    Except String XNode :=
  set_xml_tree tree (b.state.fix_relative_xpath p.xpath) setval

/-- `XMLProperty.clear`: push `None` through the setter (validation
included), then erase the backing node. -/
def prop_clear (p : PropDecl) (b : Builder) (tree : XNode) :
    Except String (Builder × XNode) := do
  let b2 ← setter p b .pynone true
  let t2 ← set_xml p b2 tree .pynone
  pure (b2, t2)

/-! ## The serialization pipeline (`get_xml_config`)

`_add_parse_bits` recurses through child objects; the Lean functions are
indexed by a fuel bound on the nesting depth (`bdepth`, supplied by the
entry point, always suffices: each child is strictly shallower). -/

mutual

/-- Nesting depth of an object tree. -/
def bdepth : Builder → Nat
  | .mk _ _ _ _ _ cs => 1 + bdepthKL cs

/-- Depth over the child-property groups. -/
def bdepthKL : List (String × List Builder) → Nat
  | [] => 0
  | (_, objs) :: rest => max (bdepthL objs) (bdepthKL rest)

/-- Depth over one group's object list. -/
def bdepthL : List Builder → Nat
  | [] => 0
  | c :: cs => max (bdepth c) (bdepthL cs)

end

/-- The defaults phase of `_do_add_parse_bits`: `_set_default` for every
declared scalar property, in declaration order. -/
def set_defaults : List PropDecl → Builder → Except String Builder
  | [], b => pure b
  | p :: rest, b => do set_defaults rest (← set_default p b)

/-- Declared scalar field names (`_all_xml_props().keys()`). -/
def xmlKeys (b : Builder) : List String := b.props.map (·.name)

/-- Declared child field names (`_all_child_props().keys()`). -/
def childKeys (b : Builder) : List String := b.children.map (·.1)

/-- The `reversed(self._XML_PROP_ORDER)` loop of `_do_add_parse_bits`:
move listed scalar keys (when explicitly set) and child keys to the
front; an unknown key is the source's `RuntimeError`. -/
def apply_static_order (xkeys ckeys : List String) :
    List String → List String → Except String (List String)
  | [], acc => pure acc
  | key :: rest, acc =>
    if !(xkeys.contains key) && !(ckeys.contains key) then
      .error "programming error: key must be xml prop or child prop"
    else if acc.contains key then
      apply_static_order xkeys ckeys rest (key :: acc.erase key)
    else if ckeys.contains key then
      apply_static_order xkeys ckeys rest (key :: acc)
    else
      apply_static_order xkeys ckeys rest acc

/-- The trailing child-key append of `_do_add_parse_bits`'s ordering. -/
def append_child_keys (acc : List String) : List String → List String
  | [] => acc
  | k :: rest =>
    append_child_keys (if acc.contains k then acc else acc ++ [k]) rest

/-- The preferred write order of `_do_add_parse_bits`: the explicit-set
order, adjusted by the static priority list, followed by the remaining
child properties in declaration order. -/
def compute_do_order (b : Builder) : Except String (List String) := do
  let base ← apply_static_order (xmlKeys b) (childKeys b)
    b.xml_prop_order.reverse b.proporder
  pure (append_child_keys base (childKeys b))

/-- The declared property for a field name (`_all_xml_props()[key]`). -/
def findProp (b : Builder) (k : String) : Option PropDecl :=
  b.props.find? (·.name == k)

/-- Serialize one child group in order, threading the tree; `rec` is the
`_add_parse_bits` call on each child object. -/
def child_fold_go (rec : Builder → XNode → Except String (Builder × XNode)) :
    List Builder → XNode → Except String (List Builder × XNode)
  | [], t => .ok ([], t)
  | c :: cs, t =>
    match rec c t with
    | .error e => .error e
    | .ok (c2, t2) =>
      match child_fold_go rec cs t2 with
      | .error e => .error e
      | .ok (cs2, t3) => .ok (c2 :: cs2, t3)

/-- The write loop of `_do_add_parse_bits`: scalars are flushed through
`_set_xml`; child properties recurse into each object via `rec`.  (A
scalar key in the order but missing from the store would be the source's
`KeyError`; unreachable, since the order record only ever names stored
fields.) -/
def write_keys_go (rec : Builder → XNode → Except String (Builder × XNode)) :
    Builder → XNode → List String → Except String (Builder × XNode)
  | b, t, [] => .ok (b, t)
  | b, t, key :: rest =>
    if (xmlKeys b).contains key then
      match findProp b key, b.propstore.lookup key with
      | some p, some v =>
        match set_xml p b t v with
        | .error e => .error e
        | .ok t2 => write_keys_go rec b t2 rest
      | _, _ => write_keys_go rec b t rest
    else
      match b.children.lookup key with
      | some objs =>
        match child_fold_go rec objs t with
        | .error e => .error e
        | .ok (objs2, t2) =>
          write_keys_go rec (b.setChildrenAt key objs2) t2 rest
      | none => write_keys_go rec b t rest

/-- `XMLBuilder._do_add_parse_bits`: apply defaults, compute the write
order, then flush every field. -/
def do_add_parse_bits_go
    (rec : Builder → XNode → Except String (Builder × XNode))
    (b : Builder) (t : XNode) : Except String (Builder × XNode) :=
  match set_defaults b.props b with
  | .error e => .error e
  | .ok b1 =>
    match compute_do_order b1 with
    | .error e => .error e
    | .ok order => write_keys_go rec b1 t order

/-- `XMLBuilder._add_parse_bits`: run `_do_add_parse_bits` against the
given tree, then restore the scalar store and order record (the source's
`finally` block; on an error the caller's own state is simply kept).
Indexed by a fuel bound on the child-nesting depth; at fuel `0` (never
reached from `add_parse_bits`) the state passes through untouched. -/
def add_parse_bits_f : Nat → Builder → XNode → Except String (Builder × XNode)
  | 0, b, t => .ok (b, t)
  | fuel + 1, b, t =>
    match do_add_parse_bits_go (add_parse_bits_f fuel) b t with
    | .error e => .error e
    | .ok (b2, t2) => .ok (b2.setStore b.propstore b.proporder, t2)

/-- `_add_parse_bits` with the depth of the object as fuel (always
sufficient: every child call strictly decreases the remaining depth). -/
def add_parse_bits (b : Builder) (t : XNode) : Except String (Builder × XNode) :=
  add_parse_bits_f (bdepth b) b t

/-- `XMLBuilder._do_get_xml_config`: serialize into the canonical tree,
or — in build mode — into a disposable copy (`copy_api`; with tree
values the canonical tree is simply returned unchanged), then read back
this object's subtree, blank a pristine stub, and newline-terminate a
root-level result. -/
def do_get_xml_config (b : Builder) (t : XNode) :
    Except String (String × Builder × XNode) :=
  match add_parse_bits b t with
  | .error e => .error e
  | .ok (b2, t2) =>
    let xmlstub := b.state.make_xml_stub
    let ret := get_xml t2 (b.state.fix_relative_xpath ".")
    let ret := if ret == xmlstub then "" else ret
    let ret :=
      if ret != "" && b.state.get_root_xpath == "" && !(strEnds ret "\n")
      then ret ++ "\n" else ret
    .ok (ret, b2, if b.state.is_build then t else t2)

/-- `XMLBuilder.get_xml_config` (the `_prepare_get_xml` /
`_finish_get_xml` hooks are no-ops in the base class). -/
def get_xml_config (b : Builder) (t : XNode) :
    Except String (String × Builder × XNode) :=
  do_get_xml_config b t

/-! ## Child Property Descriptor (`XMLChildProperty`)

For the ordering contract only the class of each stored object matters;
classes are identities (`Nat`) and each object also carries an instance
tag so insertion order is observable. -/

structure ChildObj where
  cls : Nat
  tag : Nat
deriving DecidableEq, Repr

/-- Python `list.index` on the declared class list (`None` models the
`ValueError` for a missing class). -/
def clsIndex (classes : List Nat) (c : Nat) : Option Nat :=
  classes.findIdx? (· == c)

/-- The insertion-position loop of `XMLChildProperty.append`: break at the
first stored object whose class is undeclared or of strictly lower
declared priority than the new object's; falling off the end yields the
list length.  The error is Python's `ValueError` from
`child_classes.index` on an undeclared new class. -/
def findBreakIdx (classes : List Nat) (newcls : Nat) :
    List ChildObj → Except String Nat
  | [] => .ok 0
  | o :: rest =>
    if !(classes.contains o.cls) then .ok 0
    else
      match clsIndex classes newcls, clsIndex classes o.cls with
      | none, _ => .error "ValueError: class not in child_classes"
      | some ni, some oi =>
        if ni < oi then .ok 0
        else (findBreakIdx classes newcls rest).map (· + 1)
      | some _, none => .ok 0

/-- `XMLChildProperty.append`: plain append for a single declared class,
otherwise insert at the position computed by the break loop. -/
def child_prop_append (classes : List Nat) (objlist : List ChildObj)
    (newobj : ChildObj) : Except String (List ChildObj) :=
  if classes.length == 1 then .ok (objlist ++ [newobj])
  else
    (findBreakIdx classes newobj.cls objlist).map fun idx =>
      listInsertAt idx newobj objlist

/-- Declared-class priority of a stored object (position of its class in
the declaration list). -/
def clsPriority (classes : List Nat) (o : ChildObj) : Nat :=
  (clsIndex classes o.cls).getD classes.length

/-- Reference insertion: place `x` after every element of equal-or-higher
priority position (ties keep insertion order). -/
def insByPriority (pr : ChildObj → Nat) (x : ChildObj) :
    List ChildObj → List ChildObj
  | [] => [x]
  | o :: rest =>
    if pr x < pr o then x :: o :: rest else o :: insByPriority pr x rest

/-! ## `_XMLChildList` aliasing model (reads return fresh copies)

Python list identity matters for this contract, so child collections live
in an explicit heap: `store` maps a child-property name to the heap cell
holding its stored collection, and a cell index plays the role of a list
reference.  `_get` materializes an empty stored cell on first access;
`_fget` (non-singleton) builds a fresh `_XMLChildList`, copying the
stored cell element by element.  Plain `list` operations on the returned
reference hit only its own cell. -/

structure ChildListState where
  store : List (String × Nat)
  heap : List (List ChildObj)
deriving DecidableEq, Repr

/-- Contents of a heap cell. -/
def heapAt (s : ChildListState) (r : Nat) : List ChildObj :=
  (s.heap.get? r).getD []

/-- Every stored reference points into the heap. -/
def ChildListState.wf (s : ChildListState) : Prop :=
  ∀ kv ∈ s.store, kv.2 < s.heap.length

/-- `XMLChildProperty._get` (non-singleton): the stored cell, materialized
empty on first access. -/
def child_prop_get (s : ChildListState) (name : String) :
    Nat × ChildListState :=
  match s.store.lookup name with
  | some r => (r, s)
  | none =>
    (s.heap.length, ⟨s.store ++ [(name, s.heap.length)], s.heap ++ [[]]⟩)

/-- `XMLChildProperty._fget` (non-singleton): a fresh `_XMLChildList`
populated by copying the stored cell. -/
def child_prop_fget (s : ChildListState) (name : String) :
    Nat × ChildListState :=
  let (r, s1) := child_prop_get s name
  (s1.heap.length, ⟨s1.store, s1.heap ++ [heapAt s1 r]⟩)

/-- A plain Python `list` mutation applied directly to a list reference
(`append`, `remove`, `clear`), bypassing the builder-level operations. -/
inductive PlainListOp where
  | append (o : ChildObj)
  | removeObj (o : ChildObj)
  | clearAll
deriving DecidableEq, Repr

/-- Apply a plain list mutation to the cell behind reference `r`. -/
def applyPlainOp (r : Nat) (s : ChildListState) : PlainListOp → ChildListState
  | .append o => ⟨s.store, listModify s.heap r (· ++ [o])⟩
  | .removeObj o => ⟨s.store, listModify s.heap r (·.erase o)⟩
  | .clearAll => ⟨s.store, listModify s.heap r (fun _ => [])⟩

/-! ## Auxiliary characterizations used by the theorems -/

/-- Does the node name left of any bracket carry more than one `:` after
`@`-stripping?  (The condition under which the namespace unpacking of
`_XPathSegment.__init__` raises.) -/
def nodenameColonBad (a : String) : Bool :=
  let nodename := if strStarts a "@" then (⟨a.data.drop 1⟩ : String) else a
  strContainsChar nodename ':' && ((strSplit nodename ':').length != 2)

/-- Exactly the segments on which `_XPathSegment.__init__` raises: more
than one `[`, a bracket condition with more than one `=`, or a node name
with more than one `:`. -/
def segBad (s : String) : Bool :=
  if strContainsChar s '[' then
    match strSplit s '[' with
    | [a, c] =>
      (strContainsChar c '=' && ((strSplit (stripChar ']' c) '=').length != 2)) ||
      nodenameColonBad a
    | _ => true
  else nodenameColonBad s

/-- A scalar-property mutation issued through the public API: a set (the
property assignment, `validate=True`) or a `clear`. -/
inductive PropOp where
  | setOp (p : PropDecl) (v : PyVal)
  | clearOp (p : PropDecl)

/-- Apply one mutation to an object and its tree; an operation that
raises (validation or conversion) leaves the caller's state unchanged. -/
def applyPropOp (bt : Builder × XNode) : PropOp → Builder × XNode
  | .setOp p v =>
    match setter p bt.1 v true with
    | .ok b2 => (b2, bt.2)
    | .error _ => bt
  | .clearOp p =>
    match prop_clear p bt.1 bt.2 with
    | .ok r => r
    | .error _ => bt

/-- Number of child elements of `n` carrying `name`. -/
def countChildElems (name : String) : XNode → Nat
  | .elem _ _ _ cs =>
    cs.countP fun c =>
      match c with
      | .elem nm _ _ _ => nm == name
      | .text _ => false
  | .text _ => 0

/-- No duplicates in a key list. -/
def listNodupB : List String → Bool
  | [] => true
  | x :: xs => !(xs.contains x) && listNodupB xs

mutual

/-- The dict invariant of `_propstore`'s child half, recursively: child
property names are unique on every object of the tree (automatic for
objects built by the source, where `_all_child_props` is a dict). -/
def ckNodup : Builder → Bool
  | .mk _ _ _ _ _ cs => listNodupB (cs.map (·.1)) && ckNodupKL cs

/-- `ckNodup` over the child-property groups. -/
def ckNodupKL : List (String × List Builder) → Bool
  | [] => true
  | (_, objs) :: rest => ckNodupL objs && ckNodupKL rest

/-- `ckNodup` over one group's objects. -/
def ckNodupL : List Builder → Bool
  | [] => true
  | c :: cs => ckNodup c && ckNodupL cs

end

/-! ## Helper lemmas -/

/-- A string starting with `.` but different from `"."` keeps characters
after dropping the marker. -/
theorem drop_one_ne_empty (s : String) (h1 : strStarts s "." = true)
    (h2 : s ≠ ".") : (⟨s.data.drop 1⟩ : String) ≠ "" := by
  intro hcontra
  apply h2
  have hd : s.data.drop 1 = [] := by
    have := congrArg String.data hcontra
    simpa using this
  have hp : List.isPrefixOf ['.'] s.data = true := h1
  cases s with
  | mk data =>
    cases data with
    | nil => exact absurd hp (by decide)
    | cons c rest =>
      simp only [List.drop_succ_cons, List.drop_zero] at hd
      subst hd
      simp only [List.isPrefixOf, List.isPrefixOf_nil_left, Bool.and_true,
        beq_iff_eq] at hp
      subst hp
      rfl

/-- Appending a newline yields a newline-terminated string. -/
theorem strEnds_append_newline (s : String) :
    strEnds (s ++ "\n") "\n" = true := by
  simp only [strEnds, String.data_append, List.isSuffixOf_iff_suffix]
  exact List.suffix_append s.data "\n".data

@[simp] theorem except_isOk_ok {α : Type} (x : α) :
    (Except.ok x : Except String α).isOk = true := rfl

@[simp] theorem except_isOk_error {α : Type} (e : String) :
    (Except.error e : Except String α).isOk = false := rfl

@[simp] theorem except_isOk_pure {α : Type} (x : α) :
    (pure x : Except String α).isOk = true := rfl

@[simp] theorem except_isOk_throw {α : Type} (e : String) :
    (throw e : Except String α).isOk = false := rfl

@[simp] theorem except_bind_throw {α β : Type} (e : String)
    (f : α → Except String β) :
    ((throw e : Except String α) >>= f) = throw e := rfl

@[simp] theorem except_bind_pure {α β : Type} (x : α)
    (f : α → Except String β) :
    ((pure x : Except String α) >>= f) = f x := rfl

@[simp] theorem except_error_bind {α β : Type} (e : String)
    (f : α → Except String β) :
    ((Except.error e : Except String α) >>= f) = Except.error e := rfl

@[simp] theorem except_ok_bind {α β : Type} (x : α)
    (f : α → Except String β) :
    ((Except.ok x : Except String α) >>= f) = f x := rfl

@[simp] theorem except_throw_ne_ok {α : Type} (e : String) (x : α) :
    (throw e : Except String α) = .ok x ↔ False := by
  constructor
  · intro h
    exact Except.noConfusion h
  · exact False.elim

@[simp] theorem except_pure_eq_ok {α : Type} (x y : α) :
    ((pure x : Except String α) = .ok y) ↔ x = y := by
  constructor
  · intro h
    exact Except.ok.inj h
  · intro h
    rw [h]
    rfl

/-! ## Claim C6 (`_XMLState.get_root_xpath`) -/

/-- C6 counterexample: for parent path `./devices` and relative path
`"."` (the marker alone), the code returns `"./devices."` — the marker is
NOT removed, because Python's `relpath[1:]` is empty and falsy, so the
`and`/`or` chain falls back to the unstripped relative path; the claim
predicts `"./devices"`. -/
theorem c6_counterexample :
    XMLState.get_root_xpath ⟨"domain", ".", "./devices", true⟩ = "./devices." ∧
    ("./devices." : String) ≠ "./devices" := by
  exact ⟨rfl, by decide⟩

/-- C6 (amended): `get_root_xpath` returns the relative path when the
parent path is empty; otherwise it returns the parent path concatenated
with the relative path minus its leading current-node marker — except
when the relative path is exactly the marker `"."`, which is appended
unchanged. -/
theorem c6_root_xpath_composition (st : XMLState) :
    (st.parent_xpath = "" → st.get_root_xpath = st.relative_object_xpath) ∧
    (st.parent_xpath ≠ "" →
      (st.relative_object_xpath = "." →
        st.get_root_xpath = st.parent_xpath ++ ".") ∧
      (strStarts st.relative_object_xpath "." = true →
        st.relative_object_xpath ≠ "." →
        st.get_root_xpath =
          st.parent_xpath ++ (⟨st.relative_object_xpath.data.drop 1⟩ : String)) ∧
      (strStarts st.relative_object_xpath "." = false →
        st.get_root_xpath = st.parent_xpath ++ st.relative_object_xpath)) := by
  unfold XMLState.get_root_xpath
  constructor
  · intro h
    simp [h]
  · intro h
    have hbeq : (st.parent_xpath == "") = false := by
      simpa using h
    refine ⟨?_, ?_, ?_⟩
    · intro hrel
      simp [hbeq, hrel]
    · intro hstarts hne
      have hdrop := drop_one_ne_empty st.relative_object_xpath hstarts hne
      simp only [List.drop_one] at hdrop
      simp [hbeq, hstarts, hdrop]
    · intro hstarts
      simp [hbeq, hstarts]

/-- C6 witness: the amended composition applied at a concrete state. -/
theorem c6_witness :
    XMLState.get_root_xpath ⟨"d", ".x", "./p", true⟩ =
      "./p" ++ (⟨(".x" : String).data.drop 1⟩ : String) :=
  ((c6_root_xpath_composition ⟨"d", ".x", "./p", true⟩).2 (by decide)).2.1
    (by decide) (by decide)

/-! ## Claim C4 (`_XMLAPI.get_xml` / `_sanitize_libxml_xml`) -/

/-- The sanitized text ends with a newline whenever it contains one. -/
theorem sanitize_newline_ends (s : String) :
    strContainsChar (sanitize_libxml_xml s) '\n' = true →
    strEnds (sanitize_libxml_xml s) "\n" = true := by
  unfold sanitize_libxml_xml
  set x := if strStarts s "<?" then afterFirstNewline s else s with hx
  by_cases h : (!(strEnds x "\n") && strContainsChar x '\n') = true
  · simp only [h, if_pos]
    exact fun _ => strEnds_append_newline x
  · have h' := h
    simp only [Bool.not_eq_true] at h'
    simp only [h', Bool.false_eq_true, if_false]
    intro hc
    rcases Bool.and_eq_false_iff.mp h' with h1 | h1
    · simpa using h1
    · rw [hc] at h1
      exact absurd h1 (by simp)

/-- `get_xml` on a missing path. -/
theorem get_xml_missing (root : XNode) (p : String) (h : find root p = none) :
    get_xml root p = "" := by
  unfold get_xml
  rw [h]

/-- `get_xml` on a found locator. -/
theorem get_xml_found (root : XNode) (p : String) (l : Loc)
    (h : find root p = some l) :
    get_xml root p = sanitize_libxml_xml ((serializeLoc root l).getD "") := by
  unfold get_xml
  rw [h]

/-- C4 counterexample: serializing a childless root yields a non-empty
single-line result with no trailing newline, against the claim that every
non-empty result is newline-terminated. -/
theorem c4_counterexample :
    find (XNode.elem "a" none [] []) "." = some (Loc.node []) ∧
    get_xml (XNode.elem "a" none [] []) "." = "<a/>" ∧
    ("<a/>" : String) ≠ "" ∧ strEnds "<a/>" "\n" = false := by
  exact ⟨rfl, rfl, by decide, by decide⟩

/-- C4 (amended): for every tree and path, `get_xml` returns the empty
string when the lookup finds no node; a found node serializes through
`_sanitize_libxml_xml` (which strips a leading `<?...>` line); and the
result ends with a trailing newline whenever it spans a newline — a
single-line result keeps no trailing newline. -/
theorem c4_serialize_contract (root : XNode) (p : String) :
    (find root p = none → get_xml root p = "") ∧
    (∀ l, find root p = some l →
      get_xml root p = sanitize_libxml_xml ((serializeLoc root l).getD "")) ∧
    (strContainsChar (get_xml root p) '\n' = true →
      strEnds (get_xml root p) "\n" = true) := by
  refine ⟨?_, ?_, ?_⟩
  · exact get_xml_missing root p
  · exact fun l h => get_xml_found root p l h
  · intro h
    rcases hf : find root p with _ | l
    · rw [get_xml_missing root p hf] at h
      exact absurd h (by decide)
    · rw [get_xml_found root p l hf] at h ⊢
      exact sanitize_newline_ends _ h

/-- C4 witness: the amended contract applied to a concrete multi-line
document and to a miss. -/
theorem c4_witness :
    get_xml (XNode.elem "a" none [] [.text "\n", .elem "b" none [] []]) "./x" = "" ∧
    strEnds (get_xml (XNode.elem "a" none [] [.text "\n", .elem "b" none [] []]) ".") "\n" = true := by
  constructor
  · exact (c4_serialize_contract _ "./x").1 rfl
  · exact (c4_serialize_contract _ ".").2.2 (by decide)

/-! ## Claim C8 (Path Model parsing) -/

/-- Success of the namespace-splitting block. -/
theorem parseSegColon_isOk (f n : String) (ip : Bool) (cp cv : Option String) :
    (parseSegColon f n ip cp cv).isOk =
      !(strContainsChar n ':' && ((strSplit n ':').length != 2)) := by
  unfold parseSegColon
  by_cases h : strContainsChar n ':' = true
  · rcases hs : strSplit n ':' with _ | ⟨a, _ | ⟨b, _ | _⟩⟩ <;> simp [h, hs]
  · simp [h]

/-- The namespace-splitting block passes the predicate fields through. -/
theorem parseSegColon_ok_fields (f n : String) (ip : Bool)
    (cp cv : Option String) (seg : XPathSegment)
    (h : parseSegColon f n ip cp cv = .ok seg) :
    seg.condition_prop = cp ∧ seg.condition_val = cv := by
  unfold parseSegColon at h
  revert h
  by_cases h1 : strContainsChar n ':' = true
  · rcases hs : strSplit n ':' with _ | ⟨a, _ | ⟨b, _ | _⟩⟩
    all_goals simp [h1, hs]
    all_goals intro h
    all_goals simp [← h]
  · simp [h1]
    intro h
    simp [← h]

/-- Segment parsing succeeds exactly on the complement of `segBad`. -/
theorem parseXPathSegment_isOk (s : String) :
    (parseXPathSegment s).isOk = !(segBad s) := by
  unfold parseXPathSegment segBad nodenameColonBad
  by_cases h1 : strContainsChar s '[' = true
  · rcases hsp : strSplit s '[' with _ | ⟨a, _ | ⟨c, _ | ⟨d, rest⟩⟩⟩
    · simp [h1, hsp]
    · simp [h1, hsp]
    · by_cases h2 : strContainsChar c '=' = true
      · rcases hx : strSplit (stripChar ']' c) '=' with _ | ⟨x, _ | ⟨y, _ | _⟩⟩
        · simp [h1, hsp, h2, hx]
        · simp [h1, hsp, h2, hx]
        · simp [h1, hsp, h2, hx, parseSegColon_isOk]
        · simp [h1, hsp, h2, hx]
      · simp [h1, hsp, h2, parseSegColon_isOk]
    · simp [h1, hsp]
  · simp [h1, parseSegColon_isOk]

/-- C8 counterexample: `"./a[1][2]"` has no empty segment anywhere, yet
parsing raises (Python's tuple unpacking of `split("[")` gets three
parts); meanwhile `"./"`, whose final segment IS empty, parses without
error.  This refutes "raises only when an empty segment is structurally
required". -/
theorem c8_counterexample :
    parseXPath "./a[1][2]" = .error "ValueError: unpack nodename.split" ∧
    (∀ s, s ∈ strSplit "./a[1][2]" '/' → s ≠ "") ∧
    (parseXPath "./").isOk = true := by
  refine ⟨rfl, ?_, rfl⟩
  intro s hs
  have : s = "." ∨ s = "a[1][2]" := by
    have h : strSplit "./a[1][2]" '/' = [".", "a[1][2]"] := rfl
    rw [h] at hs
    simpa using hs
  rcases this with h | h <;> subst h <;> decide

/-- C8 (amended): path parsing is pure (a Lean function); a segment
errors precisely when it has more than one `[`, or a bracket condition
with more than one `=`, or a node name with more than one `:` — never
merely because a segment is empty; a whole path errors precisely when
some segment does; and a predicate bracket without an `=` yields a null
predicate (both condition fields unset). -/
theorem c8_parse_error_characterization :
    (∀ s, (parseXPathSegment s).isOk = !(segBad s)) ∧
    (∀ s, s = "" → (parseXPathSegment s).isOk = true) ∧
    (∀ p, (parseXPath p).isOk = ((strSplit p '/').all fun s => !(segBad s))) ∧
    (∀ s a c seg, strContainsChar s '[' = true → strSplit s '[' = [a, c] →
      strContainsChar c '=' = false → parseXPathSegment s = .ok seg →
      seg.condition_prop = none ∧ seg.condition_val = none) := by
  refine ⟨parseXPathSegment_isOk, ?_, ?_, ?_⟩
  · intro s h
    subst h
    rfl
  · intro p
    unfold parseXPath
    induction strSplit p '/' with
    | nil => rfl
    | cons x xs ih =>
      unfold parseSegList
      simp only [List.all_cons]
      cases hx : parseXPathSegment x with
      | error e =>
        have hbad : (!(segBad x)) = false := by
          rw [← parseXPathSegment_isOk, hx]
          rfl
        simp [hbad]
      | ok seg =>
        have hok : (!(segBad x)) = true := by
          rw [← parseXPathSegment_isOk, hx]
          rfl
        cases hxs : parseSegList xs with
        | error e =>
          rw [hxs] at ih
          simp [hok, ← ih]
        | ok segs =>
          rw [hxs] at ih
          simp [hok, ← ih]
  · intro s a c seg h1 hsp h2 hparse
    have heq : parseXPathSegment s =
        parseSegColon s
          (if strStarts a "@" = true then (⟨a.data.drop 1⟩ : String) else a)
          (strStarts a "@") none none := by
      unfold parseXPathSegment
      simp [h1, hsp, h2]
    rw [heq] at hparse
    exact parseSegColon_ok_fields _ _ _ _ _ _ hparse

/-- C8 witness: the characterization applied to concrete segments. -/
theorem c8_witness :
    (parseXPathSegment "list[@kind=x]").isOk = !(segBad "list[@kind=x]") ∧
    (parseXPath "./a/b").isOk = ((strSplit "./a/b" '/').all fun s => !(segBad s)) ∧
    (∀ seg, parseXPathSegment "boot[2]" = .ok seg →
      seg.condition_prop = none ∧ seg.condition_val = none) := by
  refine ⟨c8_parse_error_characterization.1 _,
    c8_parse_error_characterization.2.2.1 _, ?_⟩
  intro seg h
  exact c8_parse_error_characterization.2.2.2 "boot[2]" "boot" "2]" seg
    (by decide) (by decide) (by decide) h

/-! ## Builder accessor lemmas -/

@[simp] theorem setStore_proporder (b : Builder) (ps : PropStore)
    (po : List String) : (b.setStore ps po).proporder = po := by
  cases b
  rfl

@[simp] theorem setStore_propstore (b : Builder) (ps : PropStore)
    (po : List String) : (b.setStore ps po).propstore = ps := by
  cases b
  rfl

@[simp] theorem setStore_state (b : Builder) (ps : PropStore)
    (po : List String) : (b.setStore ps po).state = b.state := by
  cases b
  rfl

@[simp] theorem setStore_props (b : Builder) (ps : PropStore)
    (po : List String) : (b.setStore ps po).props = b.props := by
  cases b
  rfl

@[simp] theorem setStore_xml_prop_order (b : Builder) (ps : PropStore)
    (po : List String) : (b.setStore ps po).xml_prop_order = b.xml_prop_order := by
  cases b
  rfl

@[simp] theorem setStore_children (b : Builder) (ps : PropStore)
    (po : List String) : (b.setStore ps po).children = b.children := by
  cases b
  rfl

@[simp] theorem nonxml_fset_proporder (p : PropDecl) (b : Builder) (v : PyVal) :
    (nonxml_fset p b v).proporder =
      (if b.proporder.contains p.name then b.proporder.erase p.name
       else b.proporder) ++ [p.name] := by
  unfold nonxml_fset
  simp

/-- The builder a successful `setter` returns is `_nonxml_fset` of the
converted value. -/
theorem setter_ok_shape (p : PropDecl) (b : Builder) (v : PyVal)
    (validate : Bool) (b2 : Builder) (h : setter p b v validate = .ok b2) :
    ∃ cv, convert_set_value p b.propstore v = .ok cv ∧ b2 = nonxml_fset p b cv := by
  unfold setter at h
  cases hval : run_validate p b.propstore v validate with
  | error e =>
    rw [hval] at h
    exact absurd h (by simp [Except.bind])
  | ok u =>
    rw [hval] at h
    cases u
    simp only [except_ok_bind] at h
    cases hc : convert_set_value p b.propstore v with
    | error e =>
      rw [hc] at h
      exact absurd h (by simp [Except.bind])
    | ok cv =>
      rw [hc] at h
      refine ⟨cv, rfl, ?_⟩
      simpa [Except.bind] using h.symm

/-! ## Claim C2 (`XMLProperty.setter` validation) -/

/-- C2: for every property with a registered validation callback, the
setter hands the callback the raw incoming value; when the callback
rejects, the very same error propagates and no successful (mutated)
object is produced — regardless of the property's conversion
configuration (sentinel, abspath, semantic type, set-transform), since
`p` is arbitrary here and conversion is never consulted. -/
theorem c2_validation_failure_propagates (p : PropDecl) (b : Builder)
    (v : PyVal) (cb : PropStore → PyVal → Except String Unit) (e : String)
    (hcb : p.validate_cb = some cb) (herr : cb b.propstore v = .error e) :
    setter p b v true = .error e := by
  have hrv : run_validate p b.propstore v true = .error e := by
    unfold run_validate
    simp [hcb, herr]
  unfold setter
  rw [hrv]
  rfl

/-- C2 witness: a rejecting validator on an integer-typed property whose
conversion would itself fail on the same raw value; the validation error
is the one reported. -/
theorem c2_witness :
    setter
      ⟨"mem", "./mem", false, true, false, false, false,
        some (fun _ _ => .error "bad memory"), none, none, none⟩
      (.mk ⟨"w", "", "", true⟩ [] [] [] [] []) (.pystr "abc") true =
      .error "bad memory" :=
  c2_validation_failure_propagates _ _ _ _ _ rfl rfl

/-! ## Claim C9 (`_proporder` duplicate-freedom) -/

/-- One `_nonxml_fset` keeps the order record duplicate-free. -/
theorem nonxml_fset_nodup (p : PropDecl) (b : Builder) (v : PyVal)
    (h : b.proporder.Nodup) : (nonxml_fset p b v).proporder.Nodup := by
  rw [nonxml_fset_proporder]
  by_cases hc : b.proporder.contains p.name = true
  · rw [if_pos hc]
    rw [List.nodup_append]
    refine ⟨h.erase p.name, List.nodup_singleton _, ?_⟩
    intro a ha hb
    simp only [List.mem_singleton] at hb
    subst hb
    exact ((h.mem_erase_iff).mp ha).1 rfl
  · rw [if_neg hc]
    rw [List.nodup_append]
    refine ⟨h, List.nodup_singleton _, ?_⟩
    intro a ha hb
    simp only [List.mem_singleton] at hb
    subst hb
    exact hc (List.elem_iff.mpr ha)

/-- One public mutation keeps the order record duplicate-free. -/
theorem applyPropOp_nodup (bt : Builder × XNode) (op : PropOp)
    (h : bt.1.proporder.Nodup) : (applyPropOp bt op).1.proporder.Nodup := by
  obtain ⟨b, t⟩ := bt
  rcases op with ⟨p, v⟩ | ⟨p⟩
  · show (match setter p b v true with
      | .ok b2 => (b2, t)
      | .error _ => (b, t)).1.proporder.Nodup
    cases hs : setter p b v true with
    | error e => exact h
    | ok b2 =>
      obtain ⟨cv, _, hb2⟩ := setter_ok_shape p b v true b2 hs
      subst hb2
      exact nonxml_fset_nodup p b cv h
  · show (match prop_clear p b t with
      | .ok r => r
      | .error _ => (b, t)).1.proporder.Nodup
    cases hs : prop_clear p b t with
    | error e => exact h
    | ok r =>
      unfold prop_clear at hs
      cases hset : setter p b .pynone true with
      | error e =>
        rw [hset] at hs
        exact absurd hs (by simp [Except.bind])
      | ok b2 =>
        rw [hset] at hs
        simp only [except_ok_bind] at hs
        obtain ⟨cv, _, hb2⟩ := setter_ok_shape p b .pynone true b2 hset
        cases hx : set_xml p b2 t .pynone with
        | error e =>
          rw [hx] at hs
          exact absurd hs (by simp [Except.bind])
        | ok t2 =>
          rw [hx] at hs
          simp only [except_ok_bind, except_pure_eq_ok] at hs
          rw [← hs]
          subst hb2
          exact nonxml_fset_nodup p b cv h

/-- C9: after any sequence of public scalar sets and clears, the order
record stays duplicate-free: every successful set first removes the
field's existing entry and then appends the name. -/
theorem c9_proporder_no_duplicates (ops : List PropOp) (b : Builder)
    (t : XNode) (h : b.proporder.Nodup) :
    ((ops.foldl applyPropOp (b, t)).1).proporder.Nodup := by
  induction ops generalizing b t with
  | nil => exact h
  | cons op rest ih =>
    simp only [List.foldl_cons]
    have h2 := applyPropOp_nodup (b, t) op h
    have hpair : applyPropOp (b, t) op =
        ((applyPropOp (b, t) op).1, (applyPropOp (b, t) op).2) := rfl
    rw [hpair]
    exact ih _ _ h2

/-- C9 witness: two sets of the same field and a clear leave a
duplicate-free record. -/
theorem c9_witness :
    ((([PropOp.setOp
          ⟨"name", "./name", false, false, false, false, false,
            none, none, none, none⟩ (.pystr "x"),
        PropOp.setOp
          ⟨"name", "./name", false, false, false, false, false,
            none, none, none, none⟩ (.pystr "y")]).foldl applyPropOp
      (.mk ⟨"w", "", "", true⟩ [] [] [] [] [], stub_doc "w")).1).proporder.Nodup :=
  c9_proporder_no_duplicates _ _ _ (List.nodup_nil)

/-! ## Claim C3 (`XMLChildProperty.append` ordering) -/

/-- A declared class has a priority index. -/
theorem clsIndex_isSome (classes : List Nat) (c : Nat) (h : c ∈ classes) :
    ∃ i, clsIndex classes c = some i := by
  induction classes with
  | nil => simp at h
  | cons a rest ih =>
    unfold clsIndex
    by_cases ha : (a == c) = true
    · exact ⟨0, by simp [List.findIdx?_cons, ha]⟩
    · have hmem : c ∈ rest := by
        rcases List.mem_cons.mp h with h1 | h1
        · exact absurd (by simp [h1]) ha
        · exact h1
      obtain ⟨i, hi⟩ := ih hmem
      refine ⟨i + 1, ?_⟩
      unfold clsIndex at hi
      simp [List.findIdx?_cons, ha, hi]

/-- Membership in the reference insertion. -/
theorem mem_insByPriority (pr : ChildObj → Nat) (x b : ChildObj)
    (l : List ChildObj) :
    b ∈ insByPriority pr x l ↔ b = x ∨ b ∈ l := by
  induction l with
  | nil => simp [insByPriority]
  | cons o rest ih =>
    unfold insByPriority
    by_cases hc : pr x < pr o
    · simp only [if_pos hc, List.mem_cons]
    · simp only [if_neg hc, List.mem_cons, ih]
      tauto

/-- The reference insertion preserves sortedness by priority. -/
theorem insByPriority_sorted (pr : ChildObj → Nat) (x : ChildObj)
    (l : List ChildObj) (h : l.Pairwise (fun a b => pr a ≤ pr b)) :
    (insByPriority pr x l).Pairwise (fun a b => pr a ≤ pr b) := by
  induction l with
  | nil => simp [insByPriority]
  | cons o rest ih =>
    rcases List.pairwise_cons.mp h with ⟨ho, hrest⟩
    unfold insByPriority
    by_cases hc : pr x < pr o
    · rw [if_pos hc]
      refine List.pairwise_cons.mpr ⟨?_, h⟩
      intro b hb
      rcases List.mem_cons.mp hb with h1 | h1
      · subst h1
        exact Nat.le_of_lt hc
      · exact Nat.le_trans (Nat.le_of_lt hc) (ho b h1)
    · rw [if_neg hc]
      refine List.pairwise_cons.mpr ⟨?_, ih hrest⟩
      intro b hb
      rcases (mem_insByPriority pr x b rest).mp hb with h1 | h1
      · subst h1
        exact Nat.le_of_not_lt hc
      · exact ho b h1

/-- When nothing in the list has strictly lower priority, the reference
insertion appends at the end. -/
theorem insByPriority_append_of_all (pr : ChildObj → Nat) (x : ChildObj)
    (l : List ChildObj) (h : ∀ o ∈ l, ¬ pr x < pr o) :
    insByPriority pr x l = l ++ [x] := by
  induction l with
  | nil => rfl
  | cons o rest ih =>
    unfold insByPriority
    rw [if_neg (h o (by simp))]
    rw [ih fun o ho => h o (by simp [ho])]
    rfl

/-- The insertion-position loop realizes the reference insertion. -/
theorem findBreak_insert (classes : List Nat) (x : ChildObj)
    (l : List ChildObj) (hx : x.cls ∈ classes)
    (hl : ∀ o ∈ l, o.cls ∈ classes) :
    ∃ i, findBreakIdx classes x.cls l = .ok i ∧
      listInsertAt i x l = insByPriority (clsPriority classes) x l := by
  obtain ⟨ni, hni⟩ := clsIndex_isSome classes x.cls hx
  induction l with
  | nil => exact ⟨0, rfl, rfl⟩
  | cons o rest ih =>
    have ho : o.cls ∈ classes := hl o (by simp)
    obtain ⟨oi, hoi⟩ := clsIndex_isSome classes o.cls ho
    obtain ⟨i, hfind, hins⟩ := ih fun o h => hl o (by simp [h])
    have hcont : classes.contains o.cls = true := List.elem_iff.mpr ho
    have hpx : clsPriority classes x = ni := by
      unfold clsPriority
      rw [hni]
      rfl
    have hpo : clsPriority classes o = oi := by
      unfold clsPriority
      rw [hoi]
      rfl
    unfold findBreakIdx insByPriority
    rw [hcont]
    simp only [Bool.not_true, Bool.false_eq_true, if_false, hni, hoi,
      hpx, hpo]
    by_cases hlt : ni < oi
    · rw [if_pos hlt, if_pos hlt]
      exact ⟨0, rfl, rfl⟩
    · rw [if_neg hlt, if_neg hlt]
      refine ⟨i + 1, ?_, ?_⟩
      · rw [hfind]
        rfl
      · show o :: listInsertAt i x rest = _
        rw [hins]

/-- C3: for a collection declared with classes `[A, B]`, appending a `B`
then an `A` yields `[A, B]`; in general, for declared classes, `append`
inserts the new object exactly after the last stored object of
equal-or-lower declared priority (ties keep insertion order, realized by
`insByPriority`), and this keeps the collection sorted by declared-class
priority. -/
theorem c3_multiclass_append_order :
    (child_prop_append [0, 1] [] ⟨1, 0⟩ = .ok [⟨1, 0⟩] ∧
     child_prop_append [0, 1] [⟨1, 0⟩] ⟨0, 1⟩ = .ok [⟨0, 1⟩, ⟨1, 0⟩]) ∧
    (∀ classes l x, x.cls ∈ classes → (∀ o ∈ l, o.cls ∈ classes) →
      child_prop_append classes l x =
        .ok (insByPriority (clsPriority classes) x l) ∧
      (l.Pairwise (fun a b => clsPriority classes a ≤ clsPriority classes b) →
        (insByPriority (clsPriority classes) x l).Pairwise
          (fun a b => clsPriority classes a ≤ clsPriority classes b))) := by
  refine ⟨⟨rfl, rfl⟩, ?_⟩
  intro classes l x hx hl
  constructor
  · unfold child_prop_append
    by_cases hlen : (classes.length == 1) = true
    · rw [if_pos hlen]
      have hone : ∀ o ∈ l, ¬ clsPriority classes x < clsPriority classes o := by
        intro o ho
        rcases classes with _ | ⟨c, _ | _⟩ <;> simp at hlen
        · have h1 : x.cls = c := by simpa using hx
          have h2 : o.cls = c := by simpa using hl o ho
          unfold clsPriority clsIndex
          rw [h1, h2]
          simp
      rw [insByPriority_append_of_all _ _ _ hone]
    · rw [if_neg hlen]
      obtain ⟨i, hfind, hins⟩ := findBreak_insert classes x l hx hl
      rw [hfind]
      simp only [Except.map]
      rw [hins]
  · exact insByPriority_sorted _ x l

/-- C3 witness: the general ordering law applied to a concrete
three-element collection. -/
theorem c3_witness :
    child_prop_append [5, 7] [⟨5, 0⟩, ⟨7, 1⟩] ⟨7, 2⟩ =
      .ok (insByPriority (clsPriority [5, 7]) ⟨7, 2⟩ [⟨5, 0⟩, ⟨7, 1⟩]) :=
  ((c3_multiclass_append_order.2 [5, 7] [⟨5, 0⟩, ⟨7, 1⟩] ⟨7, 2⟩
    (by decide) (by decide)).1)

/-! ## Claim C10 (`_XMLChildList` reads are isolated copies) -/

theorem listModify_get_ne {α : Type} (l : List α) (i j : Nat) (f : α → α)
    (h : ¬ i = j) : (listModify l i f)[j]? = l[j]? := by
  induction l generalizing i j with
  | nil => rfl
  | cons x xs ih =>
    cases i with
    | zero =>
      cases j with
      | zero => exact absurd rfl h
      | succ m =>
        show (f x :: xs)[m + 1]? = (x :: xs)[m + 1]?
        simp
    | succ n =>
      cases j with
      | zero =>
        show (x :: listModify xs n f)[0]? = (x :: xs)[0]?
        simp
      | succ m =>
        show (x :: listModify xs n f)[m + 1]? = (x :: xs)[m + 1]?
        simp only [List.getElem?_cons_succ]
        exact ih n m fun hc => h (by rw [hc])

theorem lookup_some_mem {β : Type} (store : List (String × β)) (k : String)
    (v : β) (h : store.lookup k = some v) : (k, v) ∈ store := by
  induction store with
  | nil => exact absurd h (by simp)
  | cons kv rest ih =>
    obtain ⟨k0, v0⟩ := kv
    rw [List.lookup] at h
    by_cases hk : (k == k0) = true
    · rw [hk] at h
      simp only [Option.some.injEq] at h
      subst h
      have : k = k0 := by simpa using hk
      subst this
      exact List.mem_cons_self _ _
    · rw [Bool.not_eq_true] at hk
      rw [hk] at h
      exact List.mem_cons_of_mem _ (ih h)

theorem lookup_append_of_none {β : Type} (s1 s2 : List (String × β))
    (k : String) (h : s1.lookup k = none) :
    (s1 ++ s2).lookup k = s2.lookup k := by
  induction s1 with
  | nil => rfl
  | cons kv rest ih =>
    obtain ⟨k0, v0⟩ := kv
    rw [List.lookup] at h
    rw [List.cons_append, List.lookup]
    by_cases hk : (k == k0) = true
    · rw [hk] at h
      exact absurd h (by simp)
    · rw [Bool.not_eq_true] at hk
      rw [hk] at h ⊢
      exact ih h

/-- `_get` yields the stored cell's reference: it is bound to the name in
the store, in heap range, and well-formedness is preserved. -/
theorem child_prop_get_spec (s : ChildListState) (name : String)
    (hwf : s.wf) :
    (child_prop_get s name).2.store.lookup name =
      some (child_prop_get s name).1 ∧
    (child_prop_get s name).1 < (child_prop_get s name).2.heap.length ∧
    ((child_prop_get s name).2).wf := by
  unfold child_prop_get
  cases hl : s.store.lookup name with
  | some r =>
    exact ⟨hl, hwf (name, r) (lookup_some_mem _ _ _ hl), hwf⟩
  | none =>
    refine ⟨?_, ?_, ?_⟩
    · show (s.store ++ [(name, s.heap.length)]).lookup name = _
      rw [lookup_append_of_none _ _ _ hl]
      simp [List.lookup]
    · show s.heap.length < (s.heap ++ [[]]).length
      simp
    · intro kv hkv
      rcases List.mem_append.mp hkv with h1 | h1
      · have := hwf kv h1
        simp only [List.length_append, List.length_singleton]
        omega
      · simp only [List.mem_singleton] at h1
        subst h1
        simp

/-- One plain list mutation on reference `r` leaves every other cell
untouched. -/
theorem applyPlainOp_heapAt_ne (r r0 : Nat) (s : ChildListState)
    (op : PlainListOp) (h : ¬ r = r0) :
    heapAt (applyPlainOp r s op) r0 = heapAt s r0 := by
  rcases op with o | o | _ <;>
    simp [applyPlainOp, heapAt, listModify_get_ne _ r r0 _ h]

/-- Any sequence of plain mutations on `r` leaves cell `r0 ≠ r` alone. -/
theorem foldPlainOps_heapAt_ne (r r0 : Nat) (h : ¬ r = r0) :
    ∀ (ops : List PlainListOp) (s : ChildListState),
      heapAt (ops.foldl (applyPlainOp r) s) r0 = heapAt s r0 := by
  intro ops
  induction ops with
  | nil => intro s; rfl
  | cons op rest ih =>
    intro s
    simp only [List.foldl_cons]
    rw [ih (applyPlainOp r s op)]
    exact applyPlainOp_heapAt_ne r r0 s op h

/-- C10: reading a non-singleton child property builds a fresh list
(a new heap cell whose contents copy the stored cell), and any sequence
of plain `list` mutations on the returned reference leaves the stored
collection bound in `_propstore` exactly as it was. -/
theorem c10_child_list_copy_isolated (s : ChildListState) (name : String)
    (hwf : s.wf) (r0 : Nat)
    (hr0 : (child_prop_fget s name).2.store.lookup name = some r0) :
    (child_prop_fget s name).1 ≠ r0 ∧
    heapAt (child_prop_fget s name).2 (child_prop_fget s name).1 =
      heapAt (child_prop_fget s name).2 r0 ∧
    (∀ ops : List PlainListOp,
      heapAt (ops.foldl (applyPlainOp (child_prop_fget s name).1)
        (child_prop_fget s name).2) r0 =
      heapAt (child_prop_fget s name).2 r0) := by
  obtain ⟨hlook, hlt, _⟩ := child_prop_get_spec s name hwf
  have hfg1 : (child_prop_fget s name).1 = (child_prop_get s name).2.heap.length := rfl
  have hfg2 : (child_prop_fget s name).2 =
      ⟨(child_prop_get s name).2.store,
        (child_prop_get s name).2.heap ++
          [heapAt (child_prop_get s name).2 (child_prop_get s name).1]⟩ := rfl
  have hr0' : r0 = (child_prop_get s name).1 := by
    rw [hfg2] at hr0
    simp only at hr0
    rw [hlook] at hr0
    exact (Option.some.inj hr0).symm
  have hne : (child_prop_fget s name).1 ≠ r0 := by
    rw [hfg1, hr0']
    omega
  refine ⟨hne, ?_, ?_⟩
  · rw [hfg1, hfg2, hr0']
    unfold heapAt
    simp only [List.get?_eq_getElem?]
    rw [List.getElem?_append_right (Nat.le_refl _), List.getElem?_append_left hlt]
    simp [heapAt]
  · intro ops
    exact foldPlainOps_heapAt_ne _ _ (fun hc => hne hc) ops _


/-- C10 witness: a one-cell store; a plain append on the fresh reference
leaves the stored cell untouched. -/
theorem c10_witness :
    ((child_prop_fget ⟨[("disks", 0)], [[⟨1, 1⟩]]⟩ "disks").1 ≠ 0) ∧
    heapAt ([PlainListOp.append ⟨2, 2⟩].foldl
        (applyPlainOp (child_prop_fget ⟨[("disks", 0)], [[⟨1, 1⟩]]⟩ "disks").1)
        (child_prop_fget ⟨[("disks", 0)], [[⟨1, 1⟩]]⟩ "disks").2) 0 =
      heapAt (child_prop_fget ⟨[("disks", 0)], [[⟨1, 1⟩]]⟩ "disks").2 0 := by
  have h := c10_child_list_copy_isolated ⟨[("disks", 0)], [[⟨1, 1⟩]]⟩ "disks"
    (by intro kv hkv; simp at hkv; simp [hkv]) 0 rfl
  exact ⟨h.1, h.2.2 _⟩

/-! ## Claim C5 (`node_make_stub` predicate materialization) -/

theorem listModify_get_eq {α : Type} (l : List α) (i : Nat) (f : α → α) :
    (listModify l i f).get? i = (l.get? i).map f := by
  induction l generalizing i with
  | nil => rfl
  | cons x xs ih =>
    cases i with
    | zero => rfl
    | succ n =>
      show (listModify xs n f).get? n = (xs.get? n).map f
      exact ih n

/-- Locator navigation distributes over path concatenation. -/
theorem getNodeAt_append (root : XNode) (l1 l2 : List Nat) :
    getNodeAt root (l1 ++ l2) =
      (getNodeAt root l1).bind fun n => getNodeAt n l2 := by
  induction l1 generalizing root with
  | nil => cases root <;> rfl
  | cons i rest ih =>
    cases root with
    | text c => rfl
    | elem nm ns a cs =>
      show (match cs.get? i with
          | some c => getNodeAt c (rest ++ l2)
          | none => none) =
        (match cs.get? i with
          | some c => getNodeAt c rest
          | none => none).bind fun n => getNodeAt n l2
      cases cs.get? i with
      | none => rfl
      | some child => exact ih child

/-- Reading back `[]` is the node itself. -/
theorem getNodeAt_nil (root : XNode) : getNodeAt root [] = some root := by
  cases root <;> rfl

/-- Rewriting at a resolved locator is observed by a subsequent read. -/
theorem getNodeAt_modifyNodeAt (root : XNode) (loc : List Nat)
    (f : XNode → XNode) (n : XNode) (h : getNodeAt root loc = some n) :
    getNodeAt (modifyNodeAt root loc f) loc = some (f n) := by
  induction loc generalizing root with
  | nil =>
    rw [getNodeAt_nil] at h
    have hr : root = n := Option.some.inj h
    subst hr
    cases root <;> exact getNodeAt_nil _
  | cons i rest ih =>
    cases root with
    | text c =>
      have h2 : (none : Option XNode) = some n := h
      exact Option.noConfusion h2
    | elem nm ns a cs =>
      have h2 : (match cs.get? i with
          | some c => getNodeAt c rest
          | none => none) = some n := h
      cases hg : cs.get? i with
      | none =>
        rw [hg] at h2
        exact Option.noConfusion h2
      | some child =>
        rw [hg] at h2
        have h3 : getNodeAt
            (XNode.elem nm ns a (listModify cs i (modifyNodeAt · rest f)))
            (i :: rest) =
          (match (listModify cs i (modifyNodeAt · rest f)).get? i with
            | some c => getNodeAt c rest
            | none => none) := rfl
        show getNodeAt
            (XNode.elem nm ns a (listModify cs i (modifyNodeAt · rest f)))
            (i :: rest) = some (f n)
        rw [h3, listModify_get_eq, hg]
        show getNodeAt (modifyNodeAt child rest f) rest = some (f n)
        exact ih child h2

theorem getAttr_setAttr (attrs : List (String × String)) (k v : String) :
    getAttr (setAttr attrs k v) k = some v := by
  induction attrs with
  | nil => simp [setAttr, getAttr]
  | cons kv rest ih =>
    obtain ⟨k0, v0⟩ := kv
    unfold setAttr
    by_cases hk : (k0 == k) = true
    · rw [if_pos hk]
      simp [getAttr]
    · rw [if_neg hk]
      unfold getAttr at ih ⊢
      rw [List.find?]
      simp only [hk, Bool.false_eq_true]
      exact ih

/-- The element sandwiched after the dropped last entry sits at index
`l.length`. -/
theorem dropLast_sandwich_get {α : Type} (l : List α) (a x b : α)
    (h : l ≠ []) : (l.dropLast ++ [a, x, b]).get? l.length = some x := by
  have hlen : l.dropLast.length = l.length - 1 := List.length_dropLast l
  have hpos : 1 ≤ l.length := by
    cases l with
    | nil => exact absurd rfl h
    | cons y ys => simp
  rw [List.get?_eq_getElem?]
  rw [List.getElem?_append_right (by omega)]
  rw [hlen]
  have : l.length - (l.length - 1) = 1 := by omega
  rw [this]
  rfl

/-- The new node of `node_add_child` lands at the returned index. -/
theorem node_add_child_pure_get (prevsib : Option XNode) (cs : List XNode)
    (x : XNode) :
    (node_add_child_pure prevsib cs x).1.get?
      (node_add_child_pure prevsib cs x).2 = some x := by
  unfold node_add_child_pure
  by_cases hc : node_is_text cs.getLast? = true
  · rw [if_pos hc]
    have hne : cs ≠ [] := by
      intro hnil
      subst hnil
      simp [node_is_text] at hc
    exact dropLast_sandwich_get cs _ x _ hne
  · rw [if_neg hc]
    have hne : cs ++ [XNode.text (match prevsib with
        | some (.text pc) => if !(strContainsChar pc '<') then pc else "\n"
        | _ => "\n")] ≠ [] := by simp
    exact dropLast_sandwich_get _ _ x _ hne

/-- The resolved-parent equation of `node_add_child_at`. -/
theorem node_add_child_at_eq (root : XNode) (ploc : List Nat) (x : XNode)
    (nm : String) (ns : Option String) (a : List (String × String))
    (cs : List XNode) (h : getNodeAt root ploc = some (.elem nm ns a cs)) :
    node_add_child_at root ploc x =
      (modifyNodeAt root ploc fun n =>
        match n with
        | .elem nm2 ns2 a2 _ =>
          .elem nm2 ns2 a2 (node_add_child_pure (prevSiblingOf root ploc) cs x).1
        | t => t,
       ploc ++ [(node_add_child_pure (prevSiblingOf root ploc) cs x).2]) := by
  unfold node_add_child_at
  rw [h]

/-- Linking a child under a resolved element locator places it at the
returned locator. -/
theorem node_add_child_at_get (root : XNode) (ploc : List Nat) (x : XNode)
    (nm : String) (ns : Option String) (a : List (String × String))
    (cs : List XNode) (h : getNodeAt root ploc = some (.elem nm ns a cs)) :
    getNodeAt (node_add_child_at root ploc x).1
      (node_add_child_at root ploc x).2 = some x := by
  rw [node_add_child_at_eq root ploc x nm ns a cs h]
  rw [getNodeAt_append]
  rw [getNodeAt_modifyNodeAt root ploc _ _ h]
  show (match (node_add_child_pure (prevSiblingOf root ploc) cs x).1.get?
      (node_add_child_pure (prevSiblingOf root ploc) cs x).2 with
    | some c => getNodeAt c []
    | none => none) = some x
  rw [node_add_child_pure_get]
  exact getNodeAt_nil x

/-- C5: materializing `./list[@kind='x']/entry` on a document holding
only an empty root produces exactly one `list` element carrying
`kind="x"` with exactly one `entry` child, and returns the `entry` node;
and in general the create branch of the stub walk sets the predicate
attribute of a predicate segment on the newly created node. -/
theorem c5_predicate_stub_creation :
    (node_make_stub (XNode.elem "top" none [] [])
        ("./list[@kind=" ++ squote ++ "x" ++ squote ++ "]/entry") =
      .ok (XNode.elem "top" none []
          [.text "\n  ",
           .elem "list" none [("kind", "x")]
             [.text "\n    ", .elem "entry" none [] [], .text "\n  "],
           .text "\n"],
        Loc.node [1, 1]) ∧
     countChildElems "list"
       (XNode.elem "top" none []
         [.text "\n  ",
          .elem "list" none [("kind", "x")]
            [.text "\n    ", .elem "entry" none [] [], .text "\n  "],
          .text "\n"]) = 1 ∧
     countChildElems "entry"
       (XNode.elem "list" none [("kind", "x")]
         [.text "\n    ", .elem "entry" none [] [], .text "\n  "]) = 1) ∧
    (∀ (root : XNode) (ploc : List Nat) (seg : XPathSegment)
       (nm : String) (ns : Option String) (a : List (String × String))
       (cs : List XNode) (cp : String),
      getNodeAt root ploc = some (.elem nm ns a cs) →
      seg.condition_prop = some cp → cp ≠ "" →
      ∃ attrs2 cs2,
        getNodeAt (stubCreate root ploc seg).1 (stubCreate root ploc seg).2 =
          some (.elem seg.nodename seg.nsname attrs2 cs2) ∧
        getAttr attrs2 cp = some (seg.condition_val.getD "")) := by
  constructor
  · exact ⟨rfl, rfl, rfl⟩
  · intro root ploc seg nm ns a cs cp h hcp hcpne
    have hbeq : (cp == "") = false := by simpa using hcpne
    have hsc : stubCreate root ploc seg =
        (setPropAt
          (node_add_child_at root ploc (node_new seg.nodename seg.nsname)).1
          (node_add_child_at root ploc (node_new seg.nodename seg.nsname)).2
          cp (seg.condition_val.getD ""),
         (node_add_child_at root ploc (node_new seg.nodename seg.nsname)).2) := by
      unfold stubCreate
      rw [hcp]
      show (if (cp == "") = true then _ else _) = _
      rw [if_neg (by simp [hbeq])]
      rfl
    rw [hsc]
    have hget := node_add_child_at_get root ploc
      (node_new seg.nodename seg.nsname) nm ns a cs h
    have hmod := getNodeAt_modifyNodeAt
      (node_add_child_at root ploc (node_new seg.nodename seg.nsname)).1
      (node_add_child_at root ploc (node_new seg.nodename seg.nsname)).2
      (fun n => match n with
        | .elem nm2 ns2 a2 cs2 =>
          .elem nm2 ns2 (setAttr a2 cp (seg.condition_val.getD "")) cs2
        | t => t)
      _ hget
    refine ⟨setAttr [] cp (seg.condition_val.getD ""), [], hmod,
      getAttr_setAttr _ _ _⟩

/-- C5 witness: the predicate clause applied to a concrete creation. -/
theorem c5_witness :
    ∃ attrs2 cs2,
      getNodeAt (stubCreate (XNode.elem "r" none [] []) []
          ⟨"s", "list", none, false, some "kind", some "x"⟩).1
        (stubCreate (XNode.elem "r" none [] []) []
          ⟨"s", "list", none, false, some "kind", some "x"⟩).2 =
        some (.elem "list" none attrs2 cs2) ∧
      getAttr attrs2 "kind" = some "x" :=
  c5_predicate_stub_creation.2 (XNode.elem "r" none [] []) []
    ⟨"s", "list", none, false, some "kind", some "x"⟩ "r" none [] [] "kind"
    rfl rfl (by decide)

/-! ## Claim C1 (build-mode serialization restores all state) -/

@[simp] theorem setStore_self (b : Builder) :
    b.setStore b.propstore b.proporder = b := by
  cases b
  rfl

@[simp] theorem setStore_setStore (b : Builder) (s1 s2 : PropStore)
    (o1 o2 : List String) :
    (b.setStore s1 o1).setStore s2 o2 = b.setStore s2 o2 := by
  cases b
  rfl

@[simp] theorem ckNodup_setStore (b : Builder) (s : PropStore)
    (o : List String) : ckNodup (b.setStore s o) = ckNodup b := by
  cases b
  rfl

@[simp] theorem bdepth_setStore (b : Builder) (s : PropStore)
    (o : List String) : bdepth (b.setStore s o) = bdepth b := by
  cases b
  rfl

/-- A successful `_set_default` only touches the scalar store and order
record. -/
theorem set_default_shape (p : PropDecl) (b : Builder) (b1 : Builder)
    (h : set_default p b = .ok b1) : ∃ s o, b1 = b.setStore s o := by
  unfold set_default at h
  cases hd : default_get_value p b with
  | none =>
    rw [hd] at h
    have hb : b = b1 := by simpa using h
    exact ⟨b.propstore, b.proporder, by rw [← hb, setStore_self]⟩
  | some v =>
    rw [hd] at h
    obtain ⟨cv, _, hshape⟩ := setter_ok_shape p b v false b1 h
    exact ⟨_, _, hshape⟩

/-- A successful defaults phase only touches the scalar store and order
record. -/
theorem set_defaults_shape (ps : List PropDecl) (b b1 : Builder)
    (h : set_defaults ps b = .ok b1) : ∃ s o, b1 = b.setStore s o := by
  induction ps generalizing b with
  | nil =>
    have hb : b = b1 := by simpa [set_defaults] using h
    exact ⟨b.propstore, b.proporder, by rw [← hb, setStore_self]⟩
  | cons p rest ih =>
    unfold set_defaults at h
    cases hd : set_default p b with
    | error e =>
      rw [hd] at h
      exact absurd h (by simp)
    | ok bm =>
      rw [hd] at h
      simp only [except_ok_bind] at h
      obtain ⟨s1, o1, h1⟩ := set_default_shape p b bm hd
      obtain ⟨s2, o2, h2⟩ := ih bm h
      subst h1
      exact ⟨s2, o2, by rw [h2, setStore_setStore]⟩

theorem mapReplace_id {β : Type} (cs : List (String × β)) (k : String)
    (v : β) (h : ∀ kv ∈ cs, (kv.1 == k) = false) :
    (cs.map fun kv => if kv.1 == k then (k, v) else kv) = cs := by
  induction cs with
  | nil => rfl
  | cons kv rest ih =>
    simp only [List.map_cons]
    rw [if_neg (by simp [h kv (by simp)])]
    rw [ih fun kv hkv => h kv (by simp [hkv])]

theorem mapReplace_lookup_self {β : Type} (cs : List (String × β))
    (k : String) (v : β) (hnd : listNodupB (cs.map (·.1)) = true)
    (hl : cs.lookup k = some v) :
    (cs.map fun kv => if kv.1 == k then (k, v) else kv) = cs := by
  induction cs with
  | nil => rfl
  | cons kv rest ih =>
    obtain ⟨k0, v0⟩ := kv
    rw [List.lookup] at hl
    simp only [List.map_cons, listNodupB, Bool.and_eq_true,
      Bool.not_eq_true'] at hnd
    obtain ⟨hnotin, hndrest⟩ := hnd
    by_cases hk : (k == k0) = true
    · rw [hk] at hl
      have hkeq : k = k0 := by simpa using hk
      have hveq : v0 = v := by simpa using hl
      subst hkeq
      subst hveq
      rw [List.map_cons]
      rw [if_pos (by simp)]
      rw [mapReplace_id rest k _ ?hrest]
      case hrest =>
        intro kv hkv
        have hmem : kv.1 ∈ rest.map (·.1) := List.mem_map_of_mem _ hkv
        have hne : kv.1 ≠ k := by
          intro hc
          rw [hc] at hmem
          have hkrest : (k, kv.2) ∈ rest := by
            rw [← hc]
            exact hkv
          simp at hnotin
          exact hnotin kv.2 hkrest
        simpa using hne
    · rw [Bool.not_eq_true] at hk
      rw [hk] at hl
      have hk0 : (k0 == k) = false := by
        rw [beq_eq_false_iff_ne] at hk ⊢
        exact fun hc => hk hc.symm
      rw [List.map_cons]
      rw [if_neg (by simp [hk0])]
      rw [ih hndrest hl]

/-- Replacing a key's group with the value it already holds is the
identity when keys are unique. -/
theorem setChildrenAt_self (b : Builder) (k : String)
    (objs : List Builder)
    (hnd : listNodupB (b.children.map (·.1)) = true)
    (hl : b.children.lookup k = some objs) :
    b.setChildrenAt k objs = b := by
  cases b with
  | mk st ps store order xpo cs =>
    show Builder.mk st ps store order xpo
        (cs.map fun kv => if kv.1 == k then (k, objs) else kv) =
      .mk st ps store order xpo cs
    rw [mapReplace_lookup_self cs k objs hnd hl]

/-- `ckNodup` gives unique keys and recursively well-formed groups. -/
theorem ckNodup_parts (b : Builder) (h : ckNodup b = true) :
    listNodupB (b.children.map (·.1)) = true ∧
    ckNodupKL b.children = true := by
  cases b with
  | mk st ps store order xpo cs =>
    rw [ckNodup] at h
    exact Bool.and_eq_true_iff.mp h

theorem ckNodupKL_lookup (cs : List (String × List Builder)) (k : String)
    (objs : List Builder) (h : ckNodupKL cs = true)
    (hm : (k, objs) ∈ cs) : ckNodupL objs = true := by
  induction cs with
  | nil => simp at hm
  | cons kv rest ih =>
    obtain ⟨k0, l0⟩ := kv
    rw [ckNodupKL] at h
    obtain ⟨h1, h2⟩ := Bool.and_eq_true_iff.mp h
    rcases List.mem_cons.mp hm with hm1 | hm1
    · cases hm1
      exact h1
    · exact ih h2 hm1

theorem ckNodupL_mem (l : List Builder) (c : Builder)
    (h : ckNodupL l = true) (hm : c ∈ l) : ckNodup c = true := by
  induction l with
  | nil => simp at hm
  | cons c0 rest ih =>
    rw [ckNodupL] at h
    obtain ⟨h1, h2⟩ := Bool.and_eq_true_iff.mp h
    rcases List.mem_cons.mp hm with hm1 | hm1
    · cases hm1
      exact h1
    · exact ih h2 hm1

/-- `child_fold_go` returns the very child list it was given whenever the
recursive serializer restores each child. -/
theorem child_fold_go_fst
    (rec : Builder → XNode → Except String (Builder × XNode))
    (hrec : ∀ c t r, ckNodup c = true → rec c t = .ok r → r.1 = c) :
    ∀ (l : List Builder) (t : XNode) (r : List Builder × XNode),
      ckNodupL l = true → child_fold_go rec l t = .ok r → r.1 = l := by
  intro l
  induction l with
  | nil =>
    intro t r _ h
    unfold child_fold_go at h
    rw [← Except.ok.inj h]
  | cons c cs ih =>
    intro t r hnd h
    rw [ckNodupL] at hnd
    obtain ⟨hndc, hndcs⟩ := Bool.and_eq_true_iff.mp hnd
    unfold child_fold_go at h
    cases h1 : rec c t with
    | error e =>
      rw [h1] at h
      exact absurd h (by simp)
    | ok p =>
      obtain ⟨c2, t2⟩ := p
      rw [h1] at h
      have h' : (match child_fold_go rec cs t2 with
          | .error e => (.error e : Except String (List Builder × XNode))
          | .ok (cs2, t3) => .ok (c2 :: cs2, t3)) = .ok r := h
      cases h2 : child_fold_go rec cs t2 with
      | error e =>
        rw [h2] at h'
        exact absurd h' (by simp)
      | ok q =>
        obtain ⟨cs2, t3⟩ := q
        rw [h2] at h'
        have h3 : ((c2 :: cs2, t3) : List Builder × XNode) = r := by
          simpa using h'
        rw [← h3]
        have e1 : c2 = c := hrec c t (c2, t2) hndc h1
        have e2 : cs2 = cs := ih t2 (cs2, t3) hndcs h2
        simp [e1, e2]

/-- The write loop returns the builder it was given whenever the
recursive serializer restores each child. -/
theorem write_keys_go_fst
    (rec : Builder → XNode → Except String (Builder × XNode))
    (hrec : ∀ c t r, ckNodup c = true → rec c t = .ok r → r.1 = c) :
    ∀ (ks : List String) (b : Builder) (t : XNode) (r : Builder × XNode),
      ckNodup b = true → write_keys_go rec b t ks = .ok r → r.1 = b := by
  intro ks
  induction ks with
  | nil =>
    intro b t r _ h
    unfold write_keys_go at h
    rw [← Except.ok.inj h]
  | cons key rest ih =>
    intro b t r hnd h
    unfold write_keys_go at h
    by_cases hx : ((xmlKeys b).contains key) = true
    · rw [if_pos hx] at h
      cases hfp : findProp b key with
      | none =>
        rw [hfp] at h
        cases hlk : b.propstore.lookup key with
        | none =>
          rw [hlk] at h
          exact ih b t r hnd h
        | some v =>
          rw [hlk] at h
          exact ih b t r hnd h
      | some p =>
        rw [hfp] at h
        cases hlk : b.propstore.lookup key with
        | none =>
          rw [hlk] at h
          exact ih b t r hnd h
        | some v =>
          rw [hlk] at h
          have h' : (match set_xml p b t v with
              | .error e => (.error e : Except String (Builder × XNode))
              | .ok t2 => write_keys_go rec b t2 rest) = .ok r := h
          cases hsx : set_xml p b t v with
          | error e =>
            rw [hsx] at h'
            exact absurd h' (by simp)
          | ok t2 =>
            rw [hsx] at h'
            exact ih b t2 r hnd h'
    · rw [if_neg hx] at h
      cases hlk : b.children.lookup key with
      | none =>
        rw [hlk] at h
        exact ih b t r hnd h
      | some objs =>
        rw [hlk] at h
        have h' : (match child_fold_go rec objs t with
            | .error e => (.error e : Except String (Builder × XNode))
            | .ok (objs2, t2) =>
              write_keys_go rec (b.setChildrenAt key objs2) t2 rest) = .ok r := h
        cases hcf : child_fold_go rec objs t with
        | error e =>
          rw [hcf] at h'
          exact absurd h' (by simp)
        | ok q =>
          obtain ⟨objs2, t2⟩ := q
          rw [hcf] at h'
          obtain ⟨hkeys, hkl⟩ := ckNodup_parts b hnd
          have hobjsnd : ckNodupL objs = true :=
            ckNodupKL_lookup b.children key objs hkl
              (lookup_some_mem b.children key objs hlk)
          have he : objs2 = objs :=
            child_fold_go_fst rec hrec objs t (objs2, t2) hobjsnd hcf
          have h'' : write_keys_go rec (b.setChildrenAt key objs2) t2 rest
              = .ok r := h'
          rw [he, setChildrenAt_self b key objs hkeys hlk] at h''
          exact ih b t2 r hnd h''

/-- `_do_add_parse_bits` changes nothing but the scalar store and order
record (children restore themselves through the recursive serializer). -/
theorem do_add_go_fst
    (rec : Builder → XNode → Except String (Builder × XNode))
    (hrec : ∀ c t r, ckNodup c = true → rec c t = .ok r → r.1 = c)
    (b : Builder) (t : XNode) (r : Builder × XNode)
    (hnd : ckNodup b = true)
    (h : do_add_parse_bits_go rec b t = .ok r) :
    r.1.setStore b.propstore b.proporder = b := by
  unfold do_add_parse_bits_go at h
  cases hsd : set_defaults b.props b with
  | error e =>
    rw [hsd] at h
    exact absurd h (by simp)
  | ok b1 =>
    rw [hsd] at h
    have h' : (match compute_do_order b1 with
        | .error e => (.error e : Except String (Builder × XNode))
        | .ok order => write_keys_go rec b1 t order) = .ok r := h
    cases hco : compute_do_order b1 with
    | error e =>
      rw [hco] at h'
      exact absurd h' (by simp)
    | ok order =>
      rw [hco] at h'
      obtain ⟨s, o, hb1⟩ := set_defaults_shape b.props b b1 hsd
      have hnd1 : ckNodup b1 = true := by
        rw [hb1, ckNodup_setStore]
        exact hnd
      have hfst := write_keys_go_fst rec hrec order b1 t r hnd1 h'
      rw [hfst, hb1, setStore_setStore, setStore_self]

/-- `_add_parse_bits` restores the builder completely, at any fuel. -/
theorem add_parse_bits_f_fst :
    ∀ (fuel : Nat) (b : Builder) (t : XNode) (r : Builder × XNode),
      ckNodup b = true → add_parse_bits_f fuel b t = .ok r → r.1 = b := by
  intro fuel
  induction fuel with
  | zero =>
    intro b t r _ h
    unfold add_parse_bits_f at h
    rw [← Except.ok.inj h]
  | succ fuel ih =>
    intro b t r hnd h
    unfold add_parse_bits_f at h
    cases hd : do_add_parse_bits_go (add_parse_bits_f fuel) b t with
    | error e =>
      rw [hd] at h
      exact absurd h (by simp)
    | ok p =>
      obtain ⟨b2, t2⟩ := p
      rw [hd] at h
      have h' : (Except.ok (b2.setStore b.propstore b.proporder, t2)
          : Except String (Builder × XNode)) = .ok r := h
      rw [← Except.ok.inj h']
      exact do_add_go_fst (add_parse_bits_f fuel) ih b t (b2, t2) hnd hd

/-- C1: serializing a build-mode object is repeatable and effect-free:
the serialization works on a disposable copy of the tree and restores
the explicit-value store and order record, so the builder, its scalar
store and order record, and the canonical document are all unchanged,
and a second call returns the identical text. -/
theorem c1_build_serialize_idempotent (b : Builder) (t : XNode)
    (hb : b.state.is_build = true) (hnd : ckNodup b = true)
    (x : String) (b1 : Builder) (t1 : XNode)
    (h : get_xml_config b t = .ok (x, b1, t1)) :
    b1 = b ∧ t1 = t ∧ get_xml_config b1 t1 = .ok (x, b, t) := by
  have horig := h
  unfold get_xml_config do_get_xml_config at h
  cases hap : add_parse_bits b t with
  | error e =>
    rw [hap] at h
    exact absurd h (by simp)
  | ok p =>
    obtain ⟨b2, t2⟩ := p
    rw [hap] at h
    have h3 := Except.ok.inj h
    have hb1 : b2 = b1 := congrArg (fun q => q.2.1) h3
    have ht1 : (if b.state.is_build then t else t2) = t1 :=
      congrArg (fun q => q.2.2) h3
    rw [hb] at ht1
    simp only [if_true] at ht1
    have hfst : b2 = b := add_parse_bits_f_fst (bdepth b) b t (b2, t2) hnd hap
    have hb1b : b1 = b := by rw [← hb1, hfst]
    refine ⟨hb1b, ht1.symm, ?_⟩
    rw [hb1b, ← ht1] at horig ⊢
    exact horig

@[simp] theorem nonxml_fset_props (p : PropDecl) (b : Builder) (v : PyVal) :
    (nonxml_fset p b v).props = b.props := by
  unfold nonxml_fset
  simp

@[simp] theorem nonxml_fset_state (p : PropDecl) (b : Builder) (v : PyVal) :
    (nonxml_fset p b v).state = b.state := by
  unfold nonxml_fset
  simp

@[simp] theorem nonxml_fset_bdepth (p : PropDecl) (b : Builder) (v : PyVal) :
    bdepth (nonxml_fset p b v) = bdepth b := by
  unfold nonxml_fset
  simp

theorem nonxml_fset_lookup_self (p : PropDecl) (b : Builder) (v : PyVal)
    (h : b.propstore.lookup p.name = none) :
    (nonxml_fset p b v).propstore.lookup p.name = some v := by
  unfold nonxml_fset
  simp only [setStore_propstore]
  unfold storeSet
  rw [h]
  simp only [Option.isSome_none, Bool.false_eq_true, if_false]
  rw [lookup_append_of_none _ _ _ h]
  simp [List.lookup]

/-- Setting a field to its (truthy) sentinel substitutes the default
provider's value before storing: the sentinel itself never reaches the
store. -/
theorem setter_sentinel (f : PropDecl) (b : Builder) (cb : PropStore → PyVal)
    (dn : PyVal) (validate : Bool)
    (hcb : f.default_cb = some cb) (hdn : f.default_name = some dn)
    (hdnT : pyTruthy dn = true) (hval : f.validate_cb = none)
    (hconv : f.set_converter = none) :
    setter f b dn validate = .ok (nonxml_fset f b (cb b.propstore)) := by
  have hname : f.hasDefaultName = true := by
    unfold PropDecl.hasDefaultName
    rw [hdn]
    exact hdnT
  cases validate with
  | false => simp [setter, run_validate, convert_set_value, hname, hdn, hcb, hconv]
  | true => simp [setter, run_validate, convert_set_value, hname, hdn, hcb, hconv, hval]

/-- Setting a plain string field to a non-sentinel value stores it
verbatim: the default provider is never consulted. -/
theorem setter_plain (f : PropDecl) (b : Builder) (v dn : PyVal)
    (hdn : f.default_name = some dn) (hv : v ≠ dn)
    (hval : f.validate_cb = none) (hconv : f.set_converter = none)
    (ha : f.do_abspath = false) (ho : f.is_onoff = false)
    (hy : f.is_yesno = false) (hi : f.is_int = false) :
    setter f b v true = .ok (nonxml_fset f b v) := by
  simp [setter, run_validate, convert_set_value, hval, hconv, hdn,
    ha, ho, hy, hi, hv]

theorem set_default_none (p : PropDecl) (b : Builder)
    (h : p.default_cb = none) : set_default p b = .ok b := by
  have h2 : default_get_value p b = none := by
    unfold default_get_value
    rw [h]
    split
    · rfl
    · split
      · rfl
      · rfl
  unfold set_default
  rw [h2]
  rfl

theorem set_default_set (p : PropDecl) (b : Builder)
    (h : (b.propstore.lookup p.name).isSome = true) :
    set_default p b = .ok b := by
  cases hlk : b.propstore.lookup p.name with
  | none =>
    rw [hlk] at h
    exact absurd h (by simp)
  | some v =>
    have h2 : default_get_value p b = none := by
      unfold default_get_value prop_is_unset
      rw [hlk]
      split
      · rfl
      · rfl
    unfold set_default
    rw [h2]
    rfl

/-- The defaults phase leaves the builder alone when every property is
already stored or lacks a default provider. -/
theorem set_defaults_skip :
    ∀ (ps : List PropDecl) (b : Builder),
      (∀ p ∈ ps, p.default_cb = none ∨
        (b.propstore.lookup p.name).isSome = true) →
      set_defaults ps b = .ok b := by
  intro ps
  induction ps with
  | nil =>
    intro b _
    rfl
  | cons p rest ih =>
    intro b h
    have hsd : set_default p b = .ok b := by
      rcases h p (List.mem_cons_self p rest) with h1 | h1
      · exact set_default_none p b h1
      · exact set_default_set p b h1
    unfold set_defaults
    rw [hsd]
    simp only [except_ok_bind]
    exact ih b fun q hq => h q (List.mem_cons_of_mem p hq)

/-- When exactly one declared property carries a default provider and is
unset on a build-mode object, the defaults phase stores that provider's
value and nothing else. -/
theorem set_defaults_sentinel (f : PropDecl) (cb : PropStore → PyVal)
    (dn : PyVal)
    (hcb : f.default_cb = some cb) (hdn : f.default_name = some dn)
    (hdnT : pyTruthy dn = true) (hval : f.validate_cb = none)
    (hconv : f.set_converter = none) :
    ∀ (ps : List PropDecl) (b : Builder),
      b.state.is_build = true →
      b.propstore.lookup f.name = none →
      f ∈ ps →
      (∀ p ∈ ps, p = f ∨ (p.name ≠ f.name ∧ p.default_cb = none)) →
      set_defaults ps b = .ok (nonxml_fset f b (cb b.propstore)) := by
  have hname : f.hasDefaultName = true := by
    unfold PropDecl.hasDefaultName
    rw [hdn]
    exact hdnT
  intro ps
  induction ps with
  | nil =>
    intro b _ _ hmem _
    simp at hmem
  | cons p rest ih =>
    intro b hb hunset hmem hprops
    rcases hprops p (List.mem_cons_self p rest) with hp | hp
    · subst hp
      have hd2 : default_get_value p b = some dn := by
        unfold default_get_value prop_is_unset
        rw [hb, hunset, hcb, hname, hdn]
        rfl
      have hfire : set_default p b = .ok (nonxml_fset p b (cb b.propstore)) := by
        unfold set_default
        rw [hd2]
        exact setter_sentinel p b cb dn false hcb hdn hdnT hval hconv
      unfold set_defaults
      rw [hfire]
      simp only [except_ok_bind]
      apply set_defaults_skip
      intro q hq
      rcases hprops q (List.mem_cons_of_mem p hq) with hq1 | hq1
      · right
        rw [hq1, nonxml_fset_lookup_self p b (cb b.propstore) hunset]
        rfl
      · left
        exact hq1.2
    · have hskip : set_default p b = .ok b := set_default_none p b hp.2
      unfold set_defaults
      rw [hskip]
      simp only [except_ok_bind]
      have hmem2 : f ∈ rest := by
        rcases List.mem_cons.mp hmem with he | he
        · exact absurd (congrArg PropDecl.name he).symm hp.1
        · exact he
      exact ih b hb hunset hmem2 fun q hq => hprops q (List.mem_cons_of_mem p hq)

theorem bdepth_pos (b : Builder) : bdepth b = bdepthKL b.children + 1 := by
  cases b with
  | mk s p ps po o cs =>
    show 1 + bdepthKL cs = bdepthKL cs + 1
    exact Nat.add_comm 1 _

theorem add_parse_bits_f_succ (fuel : Nat) (b : Builder) (t : XNode) :
    add_parse_bits_f (fuel + 1) b t =
      match do_add_parse_bits_go (add_parse_bits_f fuel) b t with
      | .error e => .error e
      | .ok (b2, t2) => .ok (b2.setStore b.propstore b.proporder, t2) := rfl

/-- Two builders of the same shape whose `_do_add_parse_bits` phases
agree serialize to the same text (the returned builder and tree may
still differ in the restored scalar store). -/
theorem do_get_text_congr (bA bB : Builder) (t : XNode)
    (hst : bA.state = bB.state)
    (hfa : bdepth bA = bdepth bB)
    (hd : ∀ rec, do_add_parse_bits_go rec bA t = do_add_parse_bits_go rec bB t) :
    (get_xml_config bA t).map (fun q => q.1) =
      (get_xml_config bB t).map (fun q => q.1) := by
  unfold get_xml_config do_get_xml_config add_parse_bits
  rw [hst, hfa, bdepth_pos bB]
  rw [add_parse_bits_f_succ, add_parse_bits_f_succ]
  rw [hd (add_parse_bits_f (bdepthKL bB.children))]
  cases hres : do_add_parse_bits_go (add_parse_bits_f (bdepthKL bB.children)) bB t with
  | error e => rfl
  | ok p =>
    obtain ⟨c, t2⟩ := p
    rfl

/-- C7 counterexample: declare `g` (default provider only) before `f`
(default provider and sentinel `d`) on a build-mode object.  Setting `f`
to its sentinel and serializing emits `<f>` before `<g>`, while never
setting `f` emits `<g>` before `<f>`: the sentinel set records `f` in
the order record at set time, whereas the never-set route records
defaults in declaration order at serialize time.  So the two routes do
not yield the same output. -/
theorem c7_counterexample :
    setter
      ⟨"f", "./f", false, false, false, false, false, none, none,
        some (fun _ => .pystr "FV"), some (.pystr "d")⟩
      (.mk ⟨"w", "", "", true⟩
        [⟨"g", "./g", false, false, false, false, false, none, none,
          some (fun _ => .pystr "GV"), none⟩,
         ⟨"f", "./f", false, false, false, false, false, none, none,
          some (fun _ => .pystr "FV"), some (.pystr "d")⟩] [] [] [] [])
      (.pystr "d") true =
      .ok (.mk ⟨"w", "", "", true⟩
        [⟨"g", "./g", false, false, false, false, false, none, none,
          some (fun _ => .pystr "GV"), none⟩,
         ⟨"f", "./f", false, false, false, false, false, none, none,
          some (fun _ => .pystr "FV"), some (.pystr "d")⟩]
        [("f", .pystr "FV")] ["f"] [] []) ∧
    (get_xml_config
      (.mk ⟨"w", "", "", true⟩
        [⟨"g", "./g", false, false, false, false, false, none, none,
          some (fun _ => .pystr "GV"), none⟩,
         ⟨"f", "./f", false, false, false, false, false, none, none,
          some (fun _ => .pystr "FV"), some (.pystr "d")⟩]
        [("f", .pystr "FV")] ["f"] [] [])
      (stub_doc "w")).map (fun q => q.1) =
      .ok "<w>\n  <f>FV</f>\n  <g>GV</g>\n</w>\n" ∧
    (get_xml_config
      (.mk ⟨"w", "", "", true⟩
        [⟨"g", "./g", false, false, false, false, false, none, none,
          some (fun _ => .pystr "GV"), none⟩,
         ⟨"f", "./f", false, false, false, false, false, none, none,
          some (fun _ => .pystr "FV"), some (.pystr "d")⟩] [] [] [] [])
      (stub_doc "w")).map (fun q => q.1) =
      .ok "<w>\n  <g>GV</g>\n  <f>FV</f>\n</w>\n" ∧
    ("<w>\n  <f>FV</f>\n  <g>GV</g>\n</w>\n" : String) ≠
      "<w>\n  <g>GV</g>\n  <f>FV</f>\n</w>\n" :=
  ⟨rfl, rfl, rfl, by decide⟩

/-- C7 (amended): on a build-mode object whose sentinel field is the
only declared property carrying a default provider, setting the field to
its sentinel stores the provider's value immediately (the sentinel never
reaches the store) and serializing afterwards yields exactly the text of
never setting the field; and setting the field to any non-sentinel value
stores that value verbatim, never consulting the default provider.
(With further defaulted fields present the two routes can differ in
element order, as `c7_counterexample` shows.) -/
theorem c7_default_sentinel (b : Builder) (t : XNode) (f : PropDecl)
    (cb : PropStore → PyVal) (dn : PyVal)
    (hmem : f ∈ b.props)
    (hcb : f.default_cb = some cb)
    (hdn : f.default_name = some dn)
    (hdnT : pyTruthy dn = true)
    (hval : f.validate_cb = none)
    (hconv : f.set_converter = none)
    (hb : b.state.is_build = true)
    (hunset : b.propstore.lookup f.name = none)
    (hprops : ∀ p ∈ b.props, p = f ∨ (p.name ≠ f.name ∧ p.default_cb = none)) :
    ∃ b2, setter f b dn true = .ok b2 ∧
      b2.propstore.lookup f.name = some (cb b.propstore) ∧
      (get_xml_config b2 t).map (fun q => q.1) =
        (get_xml_config b t).map (fun q => q.1) ∧
      (∀ v, v ≠ dn → f.do_abspath = false → f.is_onoff = false →
        f.is_yesno = false → f.is_int = false →
        setter f b v true = .ok (nonxml_fset f b v)) := by
  refine ⟨nonxml_fset f b (cb b.propstore),
    setter_sentinel f b cb dn true hcb hdn hdnT hval hconv,
    nonxml_fset_lookup_self f b (cb b.propstore) hunset, ?_, ?_⟩
  · apply do_get_text_congr
    · exact nonxml_fset_state f b (cb b.propstore)
    · exact nonxml_fset_bdepth f b (cb b.propstore)
    · intro rec
      unfold do_add_parse_bits_go
      have hA : set_defaults (nonxml_fset f b (cb b.propstore)).props
          (nonxml_fset f b (cb b.propstore)) =
          .ok (nonxml_fset f b (cb b.propstore)) := by
        rw [nonxml_fset_props]
        apply set_defaults_skip
        intro p hp
        rcases hprops p hp with h1 | h1
        · right
          rw [h1, nonxml_fset_lookup_self f b (cb b.propstore) hunset]
          rfl
        · left
          exact h1.2
      have hB : set_defaults b.props b =
          .ok (nonxml_fset f b (cb b.propstore)) :=
        set_defaults_sentinel f cb dn hcb hdn hdnT hval hconv
          b.props b hb hunset hmem hprops
      rw [hA, hB]
  · intro v hv ha ho hy hi
    exact setter_plain f b v dn hdn hv hval hconv ha ho hy hi

/-- C7 witness: the amended sentinel equivalence at a concrete one-default
build-mode object. -/
theorem c7_witness :
    ∃ b2, setter
      ⟨"f", "./f", false, false, false, false, false, none, none,
        some (fun _ => .pystr "FV"), some (.pystr "d")⟩
      (.mk ⟨"w", "", "", true⟩
        [⟨"f", "./f", false, false, false, false, false, none, none,
          some (fun _ => .pystr "FV"), some (.pystr "d")⟩] [] [] [] [])
      (.pystr "d") true = .ok b2 ∧
      b2.propstore.lookup "f" = some (.pystr "FV") ∧
      (get_xml_config b2 (stub_doc "w")).map (fun q => q.1) =
        (get_xml_config
          (.mk ⟨"w", "", "", true⟩
            [⟨"f", "./f", false, false, false, false, false, none, none,
              some (fun _ => .pystr "FV"), some (.pystr "d")⟩] [] [] [] [])
          (stub_doc "w")).map (fun q => q.1) ∧
      (∀ v, v ≠ .pystr "d" →
        (⟨"f", "./f", false, false, false, false, false, none, none,
          some (fun _ => .pystr "FV"),
          some (.pystr "d")⟩ : PropDecl).do_abspath = false →
        (⟨"f", "./f", false, false, false, false, false, none, none,
          some (fun _ => .pystr "FV"),
          some (.pystr "d")⟩ : PropDecl).is_onoff = false →
        (⟨"f", "./f", false, false, false, false, false, none, none,
          some (fun _ => .pystr "FV"),
          some (.pystr "d")⟩ : PropDecl).is_yesno = false →
        (⟨"f", "./f", false, false, false, false, false, none, none,
          some (fun _ => .pystr "FV"),
          some (.pystr "d")⟩ : PropDecl).is_int = false →
        setter
          ⟨"f", "./f", false, false, false, false, false, none, none,
            some (fun _ => .pystr "FV"), some (.pystr "d")⟩
          (.mk ⟨"w", "", "", true⟩
            [⟨"f", "./f", false, false, false, false, false, none, none,
              some (fun _ => .pystr "FV"), some (.pystr "d")⟩] [] [] [] [])
          v true = .ok (nonxml_fset
            ⟨"f", "./f", false, false, false, false, false, none, none,
              some (fun _ => .pystr "FV"), some (.pystr "d")⟩
            (.mk ⟨"w", "", "", true⟩
              [⟨"f", "./f", false, false, false, false, false, none, none,
                some (fun _ => .pystr "FV"), some (.pystr "d")⟩] [] [] [] [])
            v)) := by
  exact c7_default_sentinel
    (.mk ⟨"w", "", "", true⟩
      [⟨"f", "./f", false, false, false, false, false, none, none,
        some (fun _ => .pystr "FV"), some (.pystr "d")⟩] [] [] [] [])
    (stub_doc "w")
    ⟨"f", "./f", false, false, false, false, false, none, none,
      some (fun _ => .pystr "FV"), some (.pystr "d")⟩
    (fun _ => .pystr "FV") (.pystr "d")
    (List.Mem.head _) rfl rfl rfl rfl rfl rfl rfl
    (by
      intro p hp
      rcases List.mem_cons.mp hp with h1 | h1
      · left
        exact h1
      · simp at h1)

/-- C1 witness: a concrete two-field build-mode object serializes with
its state restored. -/
theorem c1_witness :
    get_xml_config
      (.mk ⟨"w", "", "", true⟩
        [⟨"g", "./g", false, false, false, false, false, none, none,
          some (fun _ => .pystr "GV"), none⟩] [] [] [] [])
      (stub_doc "w") =
    .ok ("<w>\n  <g>GV</g>\n</w>\n",
      .mk ⟨"w", "", "", true⟩
        [⟨"g", "./g", false, false, false, false, false, none, none,
          some (fun _ => .pystr "GV"), none⟩] [] [] [] [],
      stub_doc "w") ∧
    ((.mk ⟨"w", "", "", true⟩
        [⟨"g", "./g", false, false, false, false, false, none, none,
          some (fun _ => .pystr "GV"), none⟩] [] [] [] [] : Builder) =
      .mk ⟨"w", "", "", true⟩
        [⟨"g", "./g", false, false, false, false, false, none, none,
          some (fun _ => .pystr "GV"), none⟩] [] [] [] []) := by
  constructor
  · have h := c1_build_serialize_idempotent
      (.mk ⟨"w", "", "", true⟩
        [⟨"g", "./g", false, false, false, false, false, none, none,
          some (fun _ => .pystr "GV"), none⟩] [] [] [] [])
      (stub_doc "w") rfl rfl "<w>\n  <g>GV</g>\n</w>\n" _ _ rfl
    exact h.2.2
  · rfl

end XmlBuilder
